import Mathlib

/-!
Job Notification Tracker: scoring, filtering, sorting, status ledger and digest

A shallow embedding of `src/app.js` (`calculateMatchScore`, `handleFilter`,
`sortJobs`, `extractSalaryValue`, `getJobStatus`, `setJobStatus`,
`getTop10ForDigest`, `getOrCreateTodayDigest`, `formatDigestForMailto`,
`buildMailtoDigestUrl`, `validateUrl`, `allProofLinksValid`, `getProject1Status`,
`toggleSave`) and theorems about it.

Modelling conventions.
* A JavaScript string is a list of characters (`Str`); where the code counts or
  cuts UTF-16 code units (`body.length`, `body.slice`), the text is turned into
  its code units by `toUtf16`.
* `String.prototype.toLowerCase` is an engine builtin, so every function that
  calls it takes the lower-casing function as its first argument
  (`lc : Str → Str`).  `asciiLower` is the instance used on concrete ASCII inputs.
* Numbers are integers (`Int`, `Nat`); where a number can leave the range in
  which JavaScript numbers are exact (the result of `parseInt`), it is rounded
  to the nearest double by `toDouble`.
* A property that is missing, `undefined`, `null` or otherwise falsy and is read
  through `x || default` is represented by the falsy value of its type
  (`[]` for the empty string and for the empty array, `0` for a number).
* The module-level `preferences` variable and the catalog `JOBS_DATA` are passed
  explicitly; the DOM controls read by `handleFilter` are a `FilterControls` value.
* `localStorage` is a `Storage` value passed in and returned; a stored text is
  represented by the value it parses to, and the outcome of each
  `localStorage.setItem` (it may throw) is an argument.
* `new URL(text)` is an engine builtin: `validateUrl` takes the function
  `parseUrl`, which gives the protocol of the parsed URL or `none` when the
  constructor throws.
-/

namespace JobTracker

/-! ## Strings -/

/-- A JavaScript string, as a list of characters. -/
abbrev Str := List Char

/-- Lower-casing of the ASCII letters, every other character unchanged. It
agrees with `String.prototype.toLowerCase` on ASCII strings. -/
def asciiLower (s : Str) : Str := s.map Char.toLower

/-- Characters removed by `String.prototype.trim`: the ECMAScript `WhiteSpace`
and `LineTerminator` code points. -/
def isTrimChar (c : Char) : Bool :=
  let n := c.toNat
  n == 0x09 || n == 0x0A || n == 0x0B || n == 0x0C || n == 0x0D || n == 0x20 ||
  n == 0xA0 || n == 0x1680 || (0x2000 ≤ n && n ≤ 0x200A) || n == 0x2028 ||
  n == 0x2029 || n == 0x202F || n == 0x205F || n == 0x3000 || n == 0xFEFF

/-- Model of `String.prototype.trim`. -/
def trim (s : Str) : Str :=
  ((s.dropWhile isTrimChar).reverse.dropWhile isTrimChar).reverse

/-- Model of `String.prototype.split(sep)` for a one-character separator. -/
def split (sep : Char) : Str → List Str
  | [] => [[]]
  | c :: cs =>
    if c = sep then [] :: split sep cs
    else
      match split sep cs with
      | [] => [[c]]
      | p :: ps => (c :: p) :: ps

/-- Model of `String.prototype.includes`: `needle` occurs in `hay` as a
contiguous run of characters. -/
def includes : Str → Str → Bool
  | [], needle => needle.isEmpty
  | c :: cs, needle => needle.isPrefixOf (c :: cs) || includes cs needle

/-- The expression `s.split(',').map(k => k.trim().toLowerCase()).filter(k => k)`. -/
def parseList (lc : Str → Str) (s : Str) : List Str :=
  ((split ',' s).map (fun k => lc (trim k))).filter (fun k => !k.isEmpty)

/-! ## Data model -/

/-- A catalog entry. `skills` is `none` when the property is missing. -/
structure Job where
  id : Nat
  title : Str
  company : Str
  location : Str
  mode : Str
  experience : Str
  salaryRange : Str
  skills : Option (List Str)
  description : Str
  postedDaysAgo : Int
  source : Str
  applyUrl : Str
  deriving DecidableEq

/-- The preferences object saved by the settings form. -/
structure Preferences where
  roleKeywords : Str
  preferredLocations : List Str
  preferredMode : List Str
  experienceLevel : Str
  skills : Str
  minMatchScore : Int
  deriving DecidableEq

/-- The object `{...job, matchScore}` built by `handleFilter`. -/
structure ScoredJob where
  job : Job
  matchScore : Int
  deriving DecidableEq

/-! ## calculateMatchScore -/

/-- The text `'LinkedIn'`. -/
def linkedIn : Str := "LinkedIn".toList

/-- Condition of the `+25` branch: `roleKeywords.length > 0` and some keyword is
included in the lower-cased title. -/
def titleClause (lc : Str → Str) (p : Preferences) (job : Job) : Bool :=
  let roleKeywords := parseList lc p.roleKeywords
  decide (roleKeywords.length > 0) &&
    roleKeywords.any (fun keyword => includes (lc job.title) keyword)

/-- Condition of the first `+15` branch, on the lower-cased description. -/
def descriptionClause (lc : Str → Str) (p : Preferences) (job : Job) : Bool :=
  let roleKeywords := parseList lc p.roleKeywords
  decide (roleKeywords.length > 0) &&
    roleKeywords.any (fun keyword => includes (lc job.description) keyword)

/-- Condition of the location branch. -/
def locationClause (p : Preferences) (job : Job) : Bool :=
  decide (p.preferredLocations.length > 0) && p.preferredLocations.contains job.location

/-- Condition of the mode branch. -/
def modeClause (p : Preferences) (job : Job) : Bool :=
  decide (p.preferredMode.length > 0) && p.preferredMode.contains job.mode

/-- Condition of the experience branch: `experienceLevel && job.experience === experienceLevel`. -/
def experienceClause (p : Preferences) (job : Job) : Bool :=
  !p.experienceLevel.isEmpty && decide (job.experience = p.experienceLevel)

/-- Condition of the skills branch:
`userSkills.length > 0 && job.skills && job.skills.length > 0` and some user
skill is an element of the lower-cased job skills. -/
def skillsClause (lc : Str → Str) (p : Preferences) (job : Job) : Bool :=
  let userSkills := parseList lc p.skills
  match job.skills with
  | none => false
  | some skills =>
    decide (userSkills.length > 0) && decide (skills.length > 0) &&
      (let jobSkillsLower := skills.map lc
       userSkills.any (fun skill => jobSkillsLower.contains skill))

/-- Condition of the recency branch. -/
def recentClause (job : Job) : Bool := decide (job.postedDaysAgo ≤ 2)

/-- Condition of the source branch. -/
def sourceClause (job : Job) : Bool := decide (job.source = linkedIn)

/-- Embedding of `calculateMatchScore(job)`, with the global `preferences` as an
argument (`none` when it is `null`). -/
def calculateMatchScore (lc : Str → Str) (preferences : Option Preferences) (job : Job) : Int :=
  match preferences with
  | none => 0
  | some p =>
    let score : Int := 0
    let score := if titleClause lc p job then score + 25 else score
    let score := if descriptionClause lc p job then score + 15 else score
    let score := if locationClause p job then score + 15 else score
    let score := if modeClause p job then score + 10 else score
    let score := if experienceClause p job then score + 10 else score
    let score := if skillsClause lc p job then score + 15 else score
    let score := if recentClause job then score + 5 else score
    let score := if sourceClause job then score + 5 else score
    min score 100

/-! ## Status ledger (read side) -/

/-- The constant `STATUS_VALUES`. -/
def STATUS_VALUES : List Str :=
  ["Not Applied".toList, "Applied".toList, "Rejected".toList, "Selected".toList]

/-- Embedding of `getJobStatus(jobId)`; `map` is the object returned by
`getJobStatusMap()` (its entries in order, the first entry for a key wins). -/
def getJobStatus (map : List (Nat × Str)) (jobId : Nat) : Str :=
  match map.lookup jobId with
  | some s => if !s.isEmpty && STATUS_VALUES.contains s then s else "Not Applied".toList
  | none => "Not Applied".toList

/-! ## Sorting -/

/-- Insertion step of `arraySort`: `a` goes in front of the first element `b`
with `cmp a b ≤ 0`. -/
def insertBy {α : Type} (cmp : α → α → Int) (a : α) : List α → List α
  | [] => [a]
  | b :: l => if cmp a b ≤ 0 then a :: b :: l else b :: insertBy cmp a l

/-- Model of `Array.prototype.sort(cmp)`, which ECMAScript specifies as a stable
sort: `a` is placed before `b` when `cmp a b < 0`, after it when `cmp a b > 0`,
and elements that compare equal keep their input order. The result of such a
sort is determined by the comparator, whatever algorithm the engine uses; this
model computes it by insertion. -/
def arraySort {α : Type} (cmp : α → α → Int) : List α → List α
  | [] => []
  | a :: l => insertBy cmp a (arraySort cmp l)

/-- Digits matched by the regular expression `(\d+)`: the leftmost maximal run
of ASCII digits, `none` when there is no digit. -/
def firstDigitRun (s : Str) : Option Str :=
  let rest := s.dropWhile (fun c => !c.isDigit)
  if rest.isEmpty then none else some (rest.takeWhile Char.isDigit)

/-- Number of binary digits of `n`, by halving (`fuel` bounds the steps). -/
def bitLengthAux : Nat → Nat → Nat
  | 0, _ => 0
  | fuel + 1, n => if n = 0 then 0 else bitLengthAux fuel (n / 2) + 1

/-- Number of binary digits of `n`. -/
def bitLength (n : Nat) : Nat := bitLengthAux n n

/-- The natural number that stands for the JavaScript number `Infinity`: `2^1024`,
above every finite double. -/
def doubleInfinity : Nat := 2 ^ 1024

/-- The JavaScript number (IEEE 754 double) nearest to the natural number `n`:
`n` itself below `2^53`, otherwise `n` rounded to 53 significant binary digits,
ties to even, and `Infinity` (`doubleInfinity`) when the rounded value does not
fit in a double. -/
def toDouble (n : Nat) : Nat :=
  if n < 9007199254740992 then n
  else
    let e := bitLength n - 53
    let q := n / 2 ^ e
    let r := n % 2 ^ e
    let half := 2 ^ (e - 1)
    let rounded := if r > half ∨ (r = half ∧ q % 2 = 1) then q + 1 else q
    if bitLength rounded + e > 1024 then doubleInfinity else rounded * 2 ^ e

/-- The mathematical value of a string of ASCII digits read in base 10. -/
def digitsValue (digits : Str) : Nat :=
  digits.foldl (fun acc c => 10 * acc + (c.toNat - 48)) 0

/-- Value of `parseInt` on a string of ASCII digits: the JavaScript number
nearest to the value of the digits (what the engines return; ECMAScript lets an
implementation read the digits after the 20th as zeros). The result is a
non-negative integer or
`Infinity`, represented by a natural number (`doubleInfinity` for `Infinity`);
the integer difference of two such results has the sign of their JavaScript
difference, and is 0 where that difference is `NaN` (`Infinity - Infinity`),
which `Array.prototype.sort` treats as 0. -/
def parseInt (digits : Str) : Nat :=
  toDouble (digitsValue digits)

/-- Embedding of `extractSalaryValue(salaryRange)`. -/
def extractSalaryValue (salaryRange : Str) : Int :=
  match firstDigitRun salaryRange with
  | some m => (parseInt m : Int)
  | none => 0

/-- The expression `x || 0` on a number. -/
def orZero (x : Int) : Int := if x ≠ 0 then x else 0

/-- Embedding of `sortJobs(jobs, sortBy)`; the sorted array is returned. A
`sortBy` outside the five cases leaves the array as it is. -/
def sortJobs (jobs : List ScoredJob) (sortBy : Str) : List ScoredJob :=
  if sortBy = "latest".toList then
    arraySort (fun a b => a.job.postedDaysAgo - b.job.postedDaysAgo) jobs
  else if sortBy = "oldest".toList then
    arraySort (fun a b => b.job.postedDaysAgo - a.job.postedDaysAgo) jobs
  else if sortBy = "match-score".toList then
    arraySort (fun a b => orZero b.matchScore - orZero a.matchScore) jobs
  else if sortBy = "salary-high".toList then
    arraySort (fun a b =>
      let aVal := extractSalaryValue a.job.salaryRange
      let bVal := extractSalaryValue b.job.salaryRange
      bVal - aVal) jobs
  else if sortBy = "salary-low".toList then
    arraySort (fun a b =>
      let aVal := extractSalaryValue a.job.salaryRange
      let bVal := extractSalaryValue b.job.salaryRange
      aVal - bVal) jobs
  else jobs

/-! ## handleFilter -/

/-- Values of the DOM controls read by `handleFilter` (`[]` for an empty or
missing control). -/
structure FilterControls where
  keyword : Str
  location : Str
  mode : Str
  experience : Str
  source : Str
  status : Str
  matchesOnly : Bool
  sort : Str
  deriving DecidableEq

/-- The expression `preferences?.minMatchScore || 40`. -/
def minMatchScoreOf (preferences : Option Preferences) : Int :=
  match preferences with
  | none => 40
  | some p => if p.minMatchScore ≠ 0 then p.minMatchScore else 40

/-- The array `jobsWithScores`. -/
def jobsWithScores (lc : Str → Str) (preferences : Option Preferences)
    (catalog : List Job) : List ScoredJob :=
  catalog.map (fun job => { job := job, matchScore := calculateMatchScore lc preferences job })

/-- The callback passed to `jobsWithScores.filter` in `handleFilter`. -/
def keepJob (lc : Str → Str) (preferences : Option Preferences)
    (statusMap : List (Nat × Str)) (c : FilterControls) (job : ScoredJob) : Bool :=
  let keyword := lc c.keyword
  let minMatchScore := minMatchScoreOf preferences
  if !keyword.isEmpty && !includes (lc job.job.title) keyword &&
      !includes (lc job.job.company) keyword then false
  else if !c.location.isEmpty && decide (job.job.location ≠ c.location) then false
  else if !c.mode.isEmpty && decide (job.job.mode ≠ c.mode) then false
  else if !c.experience.isEmpty && decide (job.job.experience ≠ c.experience) then false
  else if !c.source.isEmpty && decide (job.job.source ≠ c.source) then false
  else if !c.status.isEmpty && decide (getJobStatus statusMap job.job.id ≠ c.status) then false
  else if c.matchesOnly && decide (job.matchScore < minMatchScore) then false
  else true

/-- The value assigned to `filteredJobs` by the filter step of `handleFilter`. -/
def filterStep (lc : Str → Str) (preferences : Option Preferences)
    (statusMap : List (Nat × Str)) (catalog : List Job) (c : FilterControls) :
    List ScoredJob :=
  (jobsWithScores lc preferences catalog).filter (keepJob lc preferences statusMap c)

/-- Embedding of `handleFilter()`: the final contents of `filteredJobs`. -/
def handleFilter (lc : Str → Str) (preferences : Option Preferences)
    (statusMap : List (Nat × Str)) (catalog : List Job) (c : FilterControls) :
    List ScoredJob :=
  let sortBy := if c.sort.isEmpty then "latest".toList else c.sort
  sortJobs (filterStep lc preferences statusMap catalog c) sortBy

/-! ## Local storage and the status ledger (write side) -/

/-- An entry of the status-update log. -/
structure StatusUpdate where
  jobId : Nat
  title : Str
  company : Str
  status : Str
  dateChanged : Str
  deriving DecidableEq

/-- The object `{ date, jobs }` stored and returned by `getOrCreateTodayDigest`. -/
structure Digest where
  date : Str
  jobs : List ScoredJob
  deriving DecidableEq

/-- The keys of `localStorage` used by the status ledger, the digest, the
preferences and the saved jobs. A field holds the value that the text under its
key parses to; `none` (for the digests: no entry) stands for a missing key, an
empty text or a text that `JSON.parse` rejects. `digests` is indexed by the
storage key of a day. -/
structure Storage where
  jobTrackerStatus : Option (List (Nat × Str))
  jobTrackerStatusUpdates : Option (List StatusUpdate)
  digests : List (Str × Digest)
  jobTrackerPreferences : Option Preferences
  savedJobs : Option (List Nat)
  deriving DecidableEq

/-- Embedding of `getJobStatusMap()`: the parsed map, `{}` when the key is
missing or reading fails. -/
def getJobStatusMap (st : Storage) : List (Nat × Str) :=
  match st.jobTrackerStatus with
  | some map => map
  | none => []

/-- Embedding of `getStatusUpdatesList()`. -/
def getStatusUpdatesList (st : Storage) : List StatusUpdate :=
  match st.jobTrackerStatusUpdates with
  | some updates => updates
  | none => []

/-- The assignment `map[key] = value` on an object: an existing property is
overwritten in place, a new one is added. -/
def setProperty (key : Nat) (value : Str) : List (Nat × Str) → List (Nat × Str)
  | [] => [(key, value)]
  | (k, v) :: rest =>
    if k = key then (key, value) :: rest else (k, v) :: setProperty key value rest

/-- Embedding of `setJobStatus(jobId, status)`. `now` is the text of
`new Date().toISOString()`; `mapWriteOk` and `updatesWriteOk` tell whether the
first and the second `localStorage.setItem` succeed (a failing write is caught
and leaves the storage as it was). -/
def setJobStatus (catalog : List Job) (now : Str) (mapWriteOk updatesWriteOk : Bool)
    (st : Storage) (jobId : Nat) (status : Str) : Storage :=
  if !STATUS_VALUES.contains status then st
  else
    let map := setProperty jobId status (getJobStatusMap st)
    let st1 := if mapWriteOk then { st with jobTrackerStatus := some map } else st
    if status ≠ "Not Applied".toList then
      match catalog.find? (fun j => decide (j.id = jobId)) with
      | some job =>
        let updates : List StatusUpdate :=
          { jobId := jobId, title := job.title, company := job.company, status := status,
            dateChanged := now } :: getStatusUpdatesList st1
        let maxUpdates := 50
        if updatesWriteOk then
          { st1 with jobTrackerStatusUpdates := some (updates.take maxUpdates) }
        else st1
      | none => st1
    else st1

/-! ## Digest -/

/-- The local calendar date read by `getDigestStorageKey`: `getFullYear()`,
`getMonth()` (0 to 11) and `getDate()`. -/
structure LocalDate where
  year : Nat
  month : Nat
  day : Nat
  deriving DecidableEq

/-- The expression `s.padStart(2, '0')`. -/
def padStart2 (s : Str) : Str := List.replicate (2 - s.length) '0' ++ s

/-- The key prefix `'jobTrackerDigest_'`. -/
def digestKeyPrefix : Str := "jobTrackerDigest_".toList

/-- Embedding of `getDigestStorageKey()`. -/
def getDigestStorageKey (d : LocalDate) : Str :=
  let y := Nat.toDigits 10 d.year
  let m := padStart2 (Nat.toDigits 10 (d.month + 1))
  let day := padStart2 (Nat.toDigits 10 d.day)
  digestKeyPrefix ++ y ++ "-".toList ++ m ++ "-".toList ++ day

/-- The comparator passed to `sort` in `getTop10ForDigest`. -/
def digestCompare (a b : ScoredJob) : Int :=
  if b.matchScore ≠ a.matchScore then b.matchScore - a.matchScore
  else a.job.postedDaysAgo - b.job.postedDaysAgo

/-- Embedding of `getTop10ForDigest()`. -/
def getTop10ForDigest (lc : Str → Str) (preferences : Option Preferences)
    (catalog : List Job) : List ScoredJob :=
  (arraySort digestCompare (jobsWithScores lc preferences catalog)).take 10

/-- Model of `s.replace(pattern, replacement)` for a text pattern: the first
occurrence is replaced. -/
def replaceFirst (pattern replacement : Str) : Str → Str
  | [] => if pattern.isEmpty then replacement else []
  | c :: cs =>
    if pattern.isPrefixOf (c :: cs) then replacement ++ (c :: cs).drop pattern.length
    else c :: replaceFirst pattern replacement cs

/-- Embedding of `getOrCreateTodayDigest()`: the returned value (`none` for
`null`) and the storage afterwards. `today` is the date read by
`getDigestStorageKey`, `writeOk` tells whether `localStorage.setItem` succeeds. -/
def getOrCreateTodayDigest (lc : Str → Str) (preferences : Option Preferences)
    (catalog : List Job) (today : LocalDate) (writeOk : Bool) (st : Storage) :
    Option Digest × Storage :=
  let key := getDigestStorageKey today
  match st.digests.lookup key with
  | some stored => (some stored, st)
  | none =>
    let jobs := getTop10ForDigest lc preferences catalog
    if jobs.length = 0 then (none, st)
    else
      let dateStr := replaceFirst digestKeyPrefix [] key
      let payload : Digest := { date := dateStr, jobs := jobs }
      let st1 := if writeOk then { st with digests := (key, payload) :: st.digests } else st
      (some payload, st1)

/-! ## Mail draft -/

/-- Text of an integer, as `String(n)` gives it. -/
def intToStr (z : Int) : Str :=
  if z < 0 then '-' :: Nat.toDigits 10 z.natAbs else Nat.toDigits 10 z.natAbs

/-- The expression `lines.join('\n')`. -/
def joinLines (lines : List Str) : Str := List.intercalate ['\n'] lines

/-- The entry pushed for the job at index `i` in `formatDigestForMailto`. -/
def mailtoJobLine (i : Nat) (job : ScoredJob) : Str :=
  let exp := if job.job.experience = "Fresher".toList then "Fresher".toList
    else job.job.experience ++ " years".toList
  Nat.toDigits 10 (i + 1) ++ ". ".toList ++ job.job.title ++ " | ".toList ++ job.job.company ++
    " | ".toList ++ job.job.location ++ " | ".toList ++ exp ++ " | Match: ".toList ++
    intToStr job.matchScore

/-- The array `lines` built by `formatDigestForMailto` for a digest with jobs. -/
def mailtoLines (d : Digest) : List Str :=
  ["Top 10 Jobs For You - 9AM Digest".toList, d.date, []] ++
    d.jobs.enum.map (fun e => mailtoJobLine e.1 e.2) ++
    [[], "This digest was generated based on your preferences.".toList]

/-- Embedding of `formatDigestForMailto(digest)`. -/
def formatDigestForMailto (digest : Option Digest) : Str :=
  match digest with
  | none => []
  | some d => if d.jobs.length = 0 then [] else joinLines (mailtoLines d)

/-- The truncation marker appended by `buildMailtoDigestUrl`. -/
def truncationMarker : Str :=
  "\n\n[Truncated. Use Copy to Clipboard for full digest.]".toList

/-- The UTF-16 code units of a text: one unit for a character below `0x10000`, a
surrogate pair for a character above. `length` and `slice` count these units. -/
def toUtf16 (s : Str) : List Nat :=
  s.flatMap (fun c =>
    if c.toNat < 0x10000 then [c.toNat]
    else [0xD800 + (c.toNat - 0x10000) / 0x400, 0xDC00 + (c.toNat - 0x10000) % 0x400])

/-- The variable `body` of `buildMailtoDigestUrl` before it is percent-encoded, as
UTF-16 code units: `body.length` and `body.slice(0, maxBodyLen)` count code
units, and the cut may leave the first half of a surrogate pair. -/
def mailtoBody (digest : Option Digest) : List Nat :=
  let body := toUtf16 (formatDigestForMailto digest)
  let maxBodyLen := 1000
  if body.length > maxBodyLen then body.take maxBodyLen ++ toUtf16 truncationMarker else body

/-- Code units that `encodeURIComponent` leaves as they are: ASCII letters,
digits and `- _ . ! ~ * ' ( )`. -/
def isUriUnreserved (u : Nat) : Bool :=
  (0x41 ≤ u && u ≤ 0x5A) || (0x61 ≤ u && u ≤ 0x7A) || (0x30 ≤ u && u ≤ 0x39) ||
  u == 0x2D || u == 0x5F || u == 0x2E || u == 0x21 || u == 0x7E || u == 0x2A ||
  u == 0x27 || u == 0x28 || u == 0x29

/-- An upper-case hexadecimal digit. -/
def hexDigitUpper (n : Nat) : Char :=
  if n < 10 then Char.ofNat (48 + n) else Char.ofNat (55 + n)

/-- The escape `%XX` of a byte. -/
def percentEscape (byte : Nat) : Str :=
  ['%', hexDigitUpper (byte / 16), hexDigitUpper (byte % 16)]

/-- The UTF-8 bytes of a code point. -/
def utf8Bytes (cp : Nat) : List Nat :=
  if cp < 0x80 then [cp]
  else if cp < 0x800 then [0xC0 + cp / 0x40, 0x80 + cp % 0x40]
  else if cp < 0x10000 then [0xE0 + cp / 0x1000, 0x80 + cp / 0x40 % 0x40, 0x80 + cp % 0x40]
  else [0xF0 + cp / 0x40000, 0x80 + cp / 0x1000 % 0x40, 0x80 + cp / 0x40 % 0x40,
        0x80 + cp % 0x40]

/-- Model of the builtin `encodeURIComponent` on UTF-16 code units: unreserved
units are kept, every other code point becomes the escapes of its UTF-8 bytes,
and a surrogate that is not part of a pair raises `URIError` (`none`). -/
def encodeURIComponent : List Nat → Option Str
  | [] => some []
  | [u] =>
    if isUriUnreserved u then some [Char.ofNat u]
    else if 0xD800 ≤ u ∧ u ≤ 0xDFFF then none
    else some ((utf8Bytes u).flatMap percentEscape)
  | u :: l :: rest =>
    if isUriUnreserved u then
      (encodeURIComponent (l :: rest)).map (fun t => Char.ofNat u :: t)
    else if 0xDC00 ≤ u ∧ u ≤ 0xDFFF then none
    else if 0xD800 ≤ u ∧ u ≤ 0xDBFF then
      if 0xDC00 ≤ l ∧ l ≤ 0xDFFF then
        (encodeURIComponent rest).map (fun t =>
          (utf8Bytes (0x10000 + (u - 0xD800) * 0x400 + (l - 0xDC00))).flatMap percentEscape ++ t)
      else none
    else
      (encodeURIComponent (l :: rest)).map (fun t => (utf8Bytes u).flatMap percentEscape ++ t)

/-- Embedding of `buildMailtoDigestUrl(digest)`: the URL, or `none` when
`encodeURIComponent` raises `URIError`. -/
def buildMailtoDigestUrl (digest : Option Digest) : Option Str :=
  let subject := toUtf16 "My 9AM Job Digest".toList
  let body := mailtoBody digest
  match encodeURIComponent subject, encodeURIComponent body with
  | some s, some b => some ("mailto:?subject=".toList ++ s ++ "&body=".toList ++ b)
  | _, _ => none

/-! ## Test checklist, proof links and project status -/

/-- The constant `JNT_TEST_COUNT`. -/
def JNT_TEST_COUNT : Nat := 10

/-- The test identifiers `1 .. JNT_TEST_COUNT` visited by the `for` loops. -/
def testIds : List Nat := List.range' 1 JNT_TEST_COUNT

/-- Embedding of `getTestChecklistState()`. `stored` is the object parsed from
the text under `jnt-test-checklist`, each property with the truthiness of its
value (`none` for a missing key, an empty text or a text that does not parse);
the result has the properties `1 .. 10`, or none at all. -/
def getTestChecklistState (stored : Option (List (Nat × Bool))) : List (Nat × Bool) :=
  match stored with
  | none => []
  | some parsed => testIds.map (fun i => (i, (parsed.lookup i).getD false))

/-- Embedding of `allTestsPassed()`. -/
def allTestsPassed (stored : Option (List (Nat × Bool))) : Bool :=
  let state := getTestChecklistState stored
  testIds.all (fun i => (state.lookup i).getD false)

/-- The object returned by `getProofLinks()`. -/
structure ProofLinks where
  lovable : Str
  github : Str
  deployed : Str
  deriving DecidableEq

/-- The constant `PROOF_LINK_KEYS`. -/
def PROOF_LINK_KEYS : List Str := ["lovable".toList, "github".toList, "deployed".toList]

/-- The property access `links[key]` (`[]` for a property that is not there). -/
def linkAt (links : ProofLinks) (key : Str) : Str :=
  if key = "lovable".toList then links.lovable
  else if key = "github".toList then links.github
  else if key = "deployed".toList then links.deployed
  else []

/-- Embedding of `validateUrl(value)`. `parseUrl` stands for `new URL(text)`: the
`protocol` of the parsed URL, `none` when the constructor throws. -/
def validateUrl (parseUrl : Str → Option Str) (value : Str) : Bool :=
  if value.isEmpty then false
  else
    let trimmed := trim value
    if trimmed.isEmpty then false
    else
      match parseUrl trimmed with
      | some protocol =>
        decide (protocol = "http:".toList) || decide (protocol = "https:".toList)
      | none => false

/-- Embedding of `getProofLinks()`; `stored` is the object parsed from the text
under `jnt-proof-links`. -/
def getProofLinks (stored : Option ProofLinks) : ProofLinks :=
  match stored with
  | some parsed => { lovable := parsed.lovable, github := parsed.github,
                     deployed := parsed.deployed }
  | none => { lovable := [], github := [], deployed := [] }

/-- Embedding of `allProofLinksValid()`. -/
def allProofLinksValid (parseUrl : Str → Option Str) (stored : Option ProofLinks) : Bool :=
  let links := getProofLinks stored
  PROOF_LINK_KEYS.all (fun key => validateUrl parseUrl (linkAt links key))

/-- Embedding of `getProject1Status()`. -/
def getProject1Status (parseUrl : Str → Option Str) (checklist : Option (List (Nat × Bool)))
    (stored : Option ProofLinks) : Str :=
  let testsOk := allTestsPassed checklist
  let linksOk := allProofLinksValid parseUrl stored
  if testsOk && linksOk then "shipped".toList
  else
    let hasAnyLink := PROOF_LINK_KEYS.any
      (fun key => decide ((trim (linkAt (getProofLinks stored) key)).length > 0))
    let anyTestChecked := (getTestChecklistState checklist).any (fun e => e.2)
    if hasAnyLink || anyTestChecked then "in-progress".toList
    else "not-started".toList

/-! ## Saved jobs -/

/-- The save button of a job card: its text and whether it has the class
`jnt-btn-saved`. -/
structure SaveButton where
  textContent : Str
  savedClass : Bool
  deriving DecidableEq

/-- A job card; `saveButton` is the result of
`cardElement.querySelector('.jnt-btn-save')`. -/
structure CardElement where
  saveButton : Option SaveButton
  deriving DecidableEq

/-- How a call of `toggleSave` ends: `threw` tells whether a `TypeError` was
raised; the other fields are the set `savedJobIds`, the storage and the save
button at that moment. -/
structure ToggleResult where
  threw : Bool
  savedJobIds : List Nat
  storage : Storage
  button : Option SaveButton
  deriving DecidableEq

/-- Embedding of `saveJobIds()`; `writeOk` tells whether `localStorage.setItem`
succeeds. -/
def saveJobIds (writeOk : Bool) (savedJobIds : List Nat) (st : Storage) : Storage :=
  if writeOk then { st with savedJobs := some savedJobIds } else st

/-- Embedding of `toggleSave(jobId, cardElement)` up to the call of
`saveJobIds()`. The set `savedJobIds` is a list of its members; `cardElement`
is `none` when the argument is not passed. Reading a property of `undefined` or
of `null` raises a `TypeError`, which ends the call. -/
def toggleSave (writeOk : Bool) (savedJobIds : List Nat) (st : Storage) (jobId : Nat)
    (cardElement : Option CardElement) : ToggleResult :=
  match cardElement with
  | none => { threw := true, savedJobIds := savedJobIds, storage := st, button := none }
  | some card =>
    let btn := card.saveButton
    if savedJobIds.contains jobId then
      let ids := savedJobIds.filter (fun x => x ≠ jobId)
      match btn with
      | none => { threw := true, savedJobIds := ids, storage := st, button := none }
      | some _ =>
        { threw := false, savedJobIds := ids, storage := saveJobIds writeOk ids st,
          button := some { textContent := "Save".toList, savedClass := false } }
    else
      let ids := savedJobIds ++ [jobId]
      match btn with
      | none => { threw := true, savedJobIds := ids, storage := st, button := none }
      | some _ =>
        { threw := false, savedJobIds := ids, storage := saveJobIds writeOk ids st,
          button := some { textContent := "✓ Saved".toList, savedClass := true } }


/-! ## Specification-side definitions -/

/-- Bonus of a clause: `n` when the clause holds, `0` otherwise. -/
def bonus (b : Bool) (n : Int) : Int := if b then n else 0

/-- The trimmed, lower-cased, non-empty entries of a comma-separated text. -/
def listedEntries (lc : Str → Str) (s : Str) : List Str :=
  (((split ',' s).map trim).map lc).filter (fun k => k ≠ [])

/-- The trimmed, lower-cased entries of a comma-separated text, empty ones included. -/
def listedEntriesRaw (lc : Str → Str) (s : Str) : List Str :=
  ((split ',' s).map trim).map lc

/-- Sum of the bonuses of the eight rule-table clauses, the skills clause being
given as an argument, capped at 100. -/
def ruleTableWith (lc : Str → Str) (p : Preferences) (job : Job) (skillsHold : Prop)
    [Decidable skillsHold] : Int :=
  min 100
    ((if ∃ k ∈ listedEntries lc p.roleKeywords, k <:+: lc job.title then 25 else 0) +
     (if ∃ k ∈ listedEntries lc p.roleKeywords, k <:+: lc job.description then 15 else 0) +
     (if p.preferredLocations ≠ [] ∧ job.location ∈ p.preferredLocations then 15 else 0) +
     (if p.preferredMode ≠ [] ∧ job.mode ∈ p.preferredMode then 10 else 0) +
     (if p.experienceLevel ≠ [] ∧ p.experienceLevel = job.experience then 10 else 0) +
     (if skillsHold then 15 else 0) +
     (if job.postedDaysAgo ≤ 2 then 5 else 0) +
     (if job.source = "LinkedIn".toList then 5 else 0))

/-- The rule table with the skills clause read as: some trimmed, lower-cased
user skill equals some lower-cased job skill. -/
def ruleTableAsWritten (lc : Str → Str) (p : Preferences) (job : Job) : Int :=
  ruleTableWith lc p job
    (∃ u ∈ listedEntriesRaw lc p.skills, ∃ s ∈ job.skills.getD [], u = lc s)

/-- The rule table with the skills clause restricted to non-empty user skills. -/
def ruleTable (lc : Str → Str) (p : Preferences) (job : Job) : Int :=
  ruleTableWith lc p job
    (∃ u ∈ listedEntries lc p.skills, ∃ s ∈ job.skills.getD [], u = lc s)

/-! ## Concrete inputs -/

/-- The job of the concrete scenario, with a company, salary and description. -/
def scenarioJob : Job :=
  { id := 1, title := "Software Engineer".toList, company := "Acme".toList,
    location := "Remote".toList, mode := "Remote".toList, experience := "2".toList,
    salaryRange := "10-15 LPA".toList, skills := some [],
    description := "Builds internal tools".toList, postedDaysAgo := 1,
    source := "LinkedIn".toList, applyUrl := [] }

/-- The preferences of the concrete scenario. -/
def scenarioPrefs : Preferences :=
  { roleKeywords := "engineer".toList, preferredLocations := ["Remote".toList],
    preferredMode := [], experienceLevel := [], skills := [], minMatchScore := 40 }

/-- The scenario job with two skills. -/
def skilledJob : Job := { scenarioJob with skills := some ["React".toList, "SQL".toList] }

/-- The scenario preferences with a skills text. -/
def skilledPrefs : Preferences := { scenarioPrefs with skills := "sql, python".toList }

/-- Preferences whose fields are all empty. -/
def emptyPrefs : Preferences :=
  { roleKeywords := [], preferredLocations := [], preferredMode := [], experienceLevel := [],
    skills := [], minMatchScore := 40 }

/-- Preferences whose text fields hold only commas and blanks. -/
def blankPrefs : Preferences :=
  { emptyPrefs with roleKeywords := " , ,".toList, skills := ",  ".toList }

/-- A job whose skill list has an empty entry. -/
def emptySkillJob : Job :=
  { id := 7, title := "Data Analyst".toList, company := "Acme".toList,
    location := "Pune".toList, mode := "Onsite".toList, experience := "Fresher".toList,
    salaryRange := "3-5 LPA".toList, skills := some ["Java".toList, []],
    description := "Weekly reports".toList, postedDaysAgo := 5, source := "Naukri".toList,
    applyUrl := [] }

/-- Preferences whose skills text ends in a comma. -/
def trailingCommaPrefs : Preferences := { emptyPrefs with skills := "react,".toList }

/-- The scenario job with its unspecified properties as arguments. -/
def scenarioJobWith (id : Nat) (company salaryRange description applyUrl : Str) : Job :=
  { id := id, title := "Software Engineer".toList, company := company,
    location := "Remote".toList, mode := "Remote".toList, experience := "2".toList,
    salaryRange := salaryRange, skills := some [], description := description,
    postedDaysAgo := 1, source := "LinkedIn".toList, applyUrl := applyUrl }

/-- Controls with every criterion empty and the matches-only toggle on. -/
def matchesOnlyControls (sort : Str) : FilterControls :=
  { keyword := [], location := [], mode := [], experience := [], source := [], status := [],
    matchesOnly := true, sort := sort }

/-- Controls with every criterion empty and the matches-only toggle off. -/
def noFilterControls (sort : Str) : FilterControls :=
  { keyword := [], location := [], mode := [], experience := [], source := [], status := [],
    matchesOnly := false, sort := sort }

/-- `output` is a permutation of `input`, ascending in `key`, and entries with
the same key value are in their input order. -/
def SortedAscendingStable (key : ScoredJob → Int) (input output : List ScoredJob) : Prop :=
  output.Perm input ∧ output.Pairwise (fun a b => key a ≤ key b) ∧
    ∀ k : Int, output.filter (fun e => decide (key e = k)) =
      input.filter (fun e => decide (key e = k))

/-- `output` is a permutation of `input`, descending in `key`, and entries with
the same key value are in their input order. -/
def SortedDescendingStable (key : ScoredJob → Int) (input output : List ScoredJob) : Prop :=
  output.Perm input ∧ output.Pairwise (fun a b => key b ≤ key a) ∧
    ∀ k : Int, output.filter (fun e => decide (key e = k)) =
      input.filter (fun e => decide (key e = k))

/-- The scenario preferences with the minimum match score set to 0. -/
def zeroThresholdPrefs : Preferences := { scenarioPrefs with minMatchScore := 0 }

/-- A three-entry catalog. -/
def sampleCatalog : List Job :=
  [emptySkillJob, scenarioJob,
   { skilledJob with id := 3, salaryRange := "Up to 8 LPA".toList, postedDaysAgo := 5 }]

/-! ## Specification-side definitions for the ledger, the digest and the mail draft -/

/-- Numeric value of a run of decimal digits. -/
def decimalValue (run : Str) : Nat :=
  Nat.ofDigits 10 (run.reverse.map (fun c => c.toNat - 48))

/-- One call of `setJobStatus` with its environment. -/
structure StatusCall where
  jobId : Nat
  status : Str
  now : Str
  mapWriteOk : Bool
  updatesWriteOk : Bool
  deriving DecidableEq

/-- The storage after a sequence of `setJobStatus` calls. -/
def runStatusCalls (catalog : List Job) (st : Storage) (calls : List StatusCall) : Storage :=
  calls.foldl
    (fun s c => setJobStatus catalog c.now c.mapWriteOk c.updatesWriteOk s c.jobId c.status) st

/-- Digest order: higher match score first, and among equal scores the more
recent posting first. -/
def DigestOrder (a b : ScoredJob) : Prop :=
  a.matchScore > b.matchScore ∨
    (a.matchScore = b.matchScore ∧ a.job.postedDaysAgo ≤ b.job.postedDaysAgo)

/-- The entry `a` ranks strictly before `b` in the digest order. -/
def RanksStrictlyBefore (a b : ScoredJob) : Prop :=
  a.matchScore > b.matchScore ∨
    (a.matchScore = b.matchScore ∧ a.job.postedDaysAgo < b.job.postedDaysAgo)

/-- A text has no line break. -/
def NoLineBreak (s : Str) : Prop := '\n' ∉ s

instance (s : Str) : Decidable (NoLineBreak s) := inferInstanceAs (Decidable ('\n' ∉ s))

/-- A storage with nothing stored. -/
def emptyStorage : Storage :=
  { jobTrackerStatus := none, jobTrackerStatusUpdates := none, digests := [],
    jobTrackerPreferences := none, savedJobs := none }

/-- The text `run` is the leftmost maximal run of decimal digits of `s`: only
non-digits precede it, it is a non-empty run of digits, and it is followed by a
non-digit or by the end of `s`. -/
def IsFirstDigitRun (s run : Str) : Prop :=
  ∃ pre post : Str, s = pre ++ run ++ post ∧ (∀ c ∈ pre, c.isDigit = false) ∧ run ≠ [] ∧
    (∀ c ∈ run, c.isDigit = true) ∧ (∀ c ∈ post.head?, c.isDigit = false)

/-- The event recorded by `setJobStatus` for a catalog job. -/
def statusEvent (job : Job) (jobId : Nat) (status now : Str) : StatusUpdate :=
  { jobId := jobId, title := job.title, company := job.company, status := status,
    dateChanged := now }

/-- A status-update entry used to fill a log. -/
def sampleUpdate : StatusUpdate :=
  { jobId := 7, title := "Data Analyst".toList, company := "Acme".toList,
    status := "Rejected".toList, dateChanged := "2026-01-01T09:00:00.000Z".toList }

/-- A storage whose status-update log holds 50 entries. -/
def fullLogStorage : Storage :=
  { emptyStorage with
    jobTrackerStatus := some [(7, "Rejected".toList)],
    jobTrackerStatusUpdates := some (List.replicate 50 sampleUpdate) }

/-- A timestamp text. -/
def sampleNow : Str := "2026-11-04T10:30:00.000Z".toList

/-- A status-update log of 50 entries, numbered 0 (newest) to 49 (oldest). -/
def numberedLog : List StatusUpdate :=
  (List.range 50).map (fun i => { sampleUpdate with jobId := i })

/-- A storage whose status-update log is `numberedLog`. -/
def numberedLogStorage : Storage :=
  { emptyStorage with jobTrackerStatusUpdates := some numberedLog }

/-- The stored status-update log, if any, has at most 50 entries. -/
def LogWithin50 (st : Storage) : Prop :=
  ∀ log, st.jobTrackerStatusUpdates = some log → log.length ≤ 50

/-- A calendar date: 4 November 2026 (`getMonth()` is 10). -/
def sampleDate : LocalDate := { year := 2026, month := 10, day := 4 }

/-- The lines of a compact text between its three header lines (title, date,
blank) and its two footer lines (blank, closing sentence). -/
def jobLinesOf (text : Str) : List Str :=
  ((split '\n' text).drop 3).dropLast.dropLast

/-- A digest with one job whose title holds a line break. -/
def lineBreakDigest : Digest :=
  { date := "2026-11-04".toList,
    jobs := [{ job := { scenarioJob with title := "Software\nEngineer".toList },
               matchScore := 50 }] }

/-- The digest of the three-entry catalog under the scenario preferences. -/
def sampleDigest : Digest :=
  { date := "2026-11-04".toList,
    jobs := getTop10ForDigest asciiLower (some scenarioPrefs) sampleCatalog }

/-! ## Specification-side definitions for the project status and the saved jobs -/

/-- A link text that `validateUrl` must reject: empty, made of whitespace only,
not parseable as a URL, or parsed with a protocol other than `http:` and
`https:`. -/
def LinkRejected (parseUrl : Str → Option Str) (link : Str) : Prop :=
  link = [] ∨ (∀ c ∈ link, isTrimChar c = true) ∨ parseUrl (trim link) = none ∨
    ∃ protocol, parseUrl (trim link) = some protocol ∧ protocol ≠ "http:".toList ∧
      protocol ≠ "https:".toList

/-- A link text that is a valid `https://` URL: not blank, and parsed with the
protocol `https:`. -/
def IsHttpsUrl (parseUrl : Str → Option Str) (link : Str) : Prop :=
  trim link ≠ [] ∧ parseUrl (trim link) = some "https:".toList

/-- All ten checklist items are checked in the stored checklist. -/
def AllItemsChecked (checklist : Option (List (Nat × Bool))) : Prop :=
  ∃ parsed, checklist = some parsed ∧ ∀ i, 1 ≤ i → i ≤ 10 → parsed.lookup i = some true

/-- Some checklist item is checked in the stored checklist. -/
def SomeItemChecked (checklist : Option (List (Nat × Bool))) : Prop :=
  ∃ parsed, checklist = some parsed ∧ ∃ i, 1 ≤ i ∧ i ≤ 10 ∧ parsed.lookup i = some true

/-- A stand-in for `new URL(text).protocol` on the concrete inputs: the text up
to and including the first colon when `://` follows it, `none` otherwise. -/
def sampleParseUrl (text : Str) : Option Str :=
  match split ':' text with
  | scheme :: rest :: _ =>
    if "//".toList.isPrefixOf rest && !scheme.isEmpty then some (scheme ++ [':']) else none
  | _ => none

/-- Stored proof links with one blank link. -/
def blankLinks : ProofLinks := { lovable := " ".toList, github := [], deployed := [] }

/-- Stored proof links, all three `https://` URLs. -/
def httpsLinks : ProofLinks :=
  { lovable := "https://lovable.dev/projects/jnt".toList,
    github := "https://github.com/example/jnt".toList,
    deployed := " https://jnt.example.app ".toList }

/-- Stored proof links whose `github` link is an `ftp://` URL. -/
def ftpLinks : ProofLinks := { httpsLinks with github := "ftp://files.example.org/jnt".toList }

/-- A stored checklist with all ten items checked. -/
def fullChecklist : List (Nat × Bool) :=
  [(1, true), (2, true), (3, true), (4, true), (5, true), (6, true), (7, true), (8, true),
   (9, true), (10, true)]

/-- Condition for `shipped`: all ten checklist items checked and all three links
accepted by `validateUrl`. -/
def ShippedCondition (parseUrl : Str → Option Str) (checklist : Option (List (Nat × Bool)))
    (stored : Option ProofLinks) : Prop :=
  AllItemsChecked checklist ∧ validateUrl parseUrl (getProofLinks stored).lovable = true ∧
    validateUrl parseUrl (getProofLinks stored).github = true ∧
    validateUrl parseUrl (getProofLinks stored).deployed = true

/-- Condition for `in-progress` as the claim words it: some checklist item is
checked or some link is non-empty. -/
def ProgressConditionAsWritten (checklist : Option (List (Nat × Bool)))
    (stored : Option ProofLinks) : Prop :=
  SomeItemChecked checklist ∨ (getProofLinks stored).lovable ≠ [] ∨
    (getProofLinks stored).github ≠ [] ∨ (getProofLinks stored).deployed ≠ []

/-- Condition for `in-progress` with links compared after trimming: some
checklist item is checked or some link is not blank. -/
def ProgressCondition (checklist : Option (List (Nat × Bool)))
    (stored : Option ProofLinks) : Prop :=
  SomeItemChecked checklist ∨ trim (getProofLinks stored).lovable ≠ [] ∨
    trim (getProofLinks stored).github ≠ [] ∨ trim (getProofLinks stored).deployed ≠ []

/-- A job card with its save button. -/
def sampleCard : CardElement :=
  { saveButton := some { textContent := "Save".toList, savedClass := false } }


/-- A company name of 946 letters followed by a character outside the Basic
Multilingual Plane (U+1F680). -/
def longCompany : Str := List.replicate 946 'y' ++ [Char.ofNat 0x1F680]

/-- A digest whose compact text has the surrogate pair of U+1F680 as its code
units 1000 and 1001. -/
def surrogateCutDigest : Digest :=
  { date := "2026-11-04".toList,
    jobs := [{ job := { scenarioJob with title := "TT".toList, company := longCompany },
               matchScore := 50 }] }

/-- Two scored jobs whose salary texts are `2^53` and `2^53 + 1`. -/
def roundedSalaryJobs : List ScoredJob :=
  [{ job := { scenarioJob with id := 1, salaryRange := "9007199254740992".toList },
     matchScore := 0 },
   { job := { scenarioJob with id := 2, salaryRange := "9007199254740993".toList },
     matchScore := 0 }]

/-- A salary text whose first number is `2^53 + 1`. -/
def largeSalaryText : Str := "9007199254740993 a year".toList

/-! ## Theorems -/

/-! ## Lemmas on strings -/

theorem includes_iff (hay needle : Str) : includes hay needle = true ↔ needle <:+: hay := by
  induction hay with
  | nil =>
    cases needle with
    | nil => simp [includes]
    | cons a l => simp [includes]
  | cons c cs ih =>
    rw [includes, Bool.or_eq_true, ih, List.infix_cons_iff, List.isPrefixOf_iff_prefix]

theorem listedEntries_eq_parseList (lc : Str → Str) (s : Str) :
    listedEntries lc s = parseList lc s := by
  unfold listedEntries parseList
  rw [List.map_map]
  congr 1
  funext k
  cases k <;> simp

theorem any_includes_iff (l : List Str) (hay : Str) :
    (decide (l.length > 0) && l.any (fun keyword => includes hay keyword)) = true ↔
      ∃ k ∈ l, k <:+: hay := by
  simp only [Bool.and_eq_true, decide_eq_true_eq, List.any_eq_true, includes_iff]
  constructor
  · rintro ⟨_, h⟩
    exact h
  · rintro ⟨k, hk, h⟩
    exact ⟨List.length_pos_of_mem hk, k, hk, h⟩

theorem titleClause_iff (lc : Str → Str) (p : Preferences) (job : Job) :
    titleClause lc p job = true ↔ ∃ k ∈ listedEntries lc p.roleKeywords, k <:+: lc job.title := by
  rw [listedEntries_eq_parseList]
  exact any_includes_iff _ _

theorem descriptionClause_iff (lc : Str → Str) (p : Preferences) (job : Job) :
    descriptionClause lc p job = true ↔
      ∃ k ∈ listedEntries lc p.roleKeywords, k <:+: lc job.description := by
  rw [listedEntries_eq_parseList]
  exact any_includes_iff _ _

theorem locationClause_iff (p : Preferences) (job : Job) :
    locationClause p job = true ↔
      p.preferredLocations ≠ [] ∧ job.location ∈ p.preferredLocations := by
  simp [locationClause, List.length_pos]

theorem modeClause_iff (p : Preferences) (job : Job) :
    modeClause p job = true ↔ p.preferredMode ≠ [] ∧ job.mode ∈ p.preferredMode := by
  simp [modeClause, List.length_pos]

theorem experienceClause_iff (p : Preferences) (job : Job) :
    experienceClause p job = true ↔
      p.experienceLevel ≠ [] ∧ p.experienceLevel = job.experience := by
  unfold experienceClause
  cases h : p.experienceLevel with
  | nil => simp
  | cons a l =>
    simp only [List.isEmpty_cons, Bool.not_false, Bool.true_and, decide_eq_true_eq, ne_eq,
      reduceCtorEq, not_false_eq_true, true_and]
    exact eq_comm

theorem skillsClause_iff (lc : Str → Str) (p : Preferences) (job : Job) :
    skillsClause lc p job = true ↔
      ∃ u ∈ listedEntries lc p.skills, ∃ s ∈ job.skills.getD [], u = lc s := by
  rw [listedEntries_eq_parseList]
  unfold skillsClause
  cases hs : job.skills with
  | none => simp
  | some skills =>
    simp only [Bool.and_eq_true, decide_eq_true_eq, List.any_eq_true, Option.getD_some,
      List.contains, List.elem_iff, List.mem_map]
    constructor
    · rintro ⟨_, u, hu, s, hs, h⟩
      exact ⟨u, hu, s, hs, h.symm⟩
    · rintro ⟨u, hu, s, hs, h⟩
      exact ⟨⟨List.length_pos_of_mem hu, List.length_pos_of_mem hs⟩, u, hu, s, hs, h.symm⟩

theorem recentClause_iff (job : Job) : recentClause job = true ↔ job.postedDaysAgo ≤ 2 := by
  simp [recentClause]

theorem sourceClause_iff (job : Job) :
    sourceClause job = true ↔ job.source = "LinkedIn".toList := by
  unfold sourceClause linkedIn
  exact decide_eq_true_iff

/-- The score as a capped sum of bonuses. -/
theorem calculateMatchScore_some (lc : Str → Str) (p : Preferences) (job : Job) :
    calculateMatchScore lc (some p) job =
      min (bonus (titleClause lc p job) 25 + bonus (descriptionClause lc p job) 15 +
        bonus (locationClause p job) 15 + bonus (modeClause p job) 10 +
        bonus (experienceClause p job) 10 + bonus (skillsClause lc p job) 15 +
        bonus (recentClause job) 5 + bonus (sourceClause job) 5) 100 := by
  simp only [calculateMatchScore, bonus]
  cases titleClause lc p job <;> cases descriptionClause lc p job <;>
    cases locationClause p job <;> cases modeClause p job <;>
    cases experienceClause p job <;> cases skillsClause lc p job <;>
    cases recentClause job <;> cases sourceClause job <;> rfl

theorem bonus_bounds (b : Bool) (n : Int) (hn : 0 ≤ n) : 0 ≤ bonus b n ∧ bonus b n ≤ n := by
  cases b <;> simp [bonus, hn]

theorem bonus_mono (b c : Bool) (n : Int) (hn : 0 ≤ n) (h : b = true → c = true) :
    bonus b n ≤ bonus c n := by
  cases b <;> cases c <;> simp_all [bonus]

theorem bonus_eq_ite (b : Bool) (P : Prop) [Decidable P] (n : Int) (h : b = true ↔ P) :
    bonus b n = if P then n else 0 := by
  unfold bonus
  by_cases hP : P
  · rw [if_pos hP, if_pos (h.mpr hP)]
  · rw [if_neg hP, if_neg (fun hb => hP (h.mp hb))]

/-- C1: for every job and every preferences value, absent preferences included,
`calculateMatchScore` returns an integer between 0 and 100. -/
theorem calculateMatchScore_range (lc : Str → Str) (preferences : Option Preferences)
    (job : Job) :
    0 ≤ calculateMatchScore lc preferences job ∧ calculateMatchScore lc preferences job ≤ 100 := by
  cases preferences with
  | none => simp [calculateMatchScore]
  | some p =>
    rw [calculateMatchScore_some]
    have h1 := bonus_bounds (titleClause lc p job) 25 (by norm_num)
    have h2 := bonus_bounds (descriptionClause lc p job) 15 (by norm_num)
    have h3 := bonus_bounds (locationClause p job) 15 (by norm_num)
    have h4 := bonus_bounds (modeClause p job) 10 (by norm_num)
    have h5 := bonus_bounds (experienceClause p job) 10 (by norm_num)
    have h6 := bonus_bounds (skillsClause lc p job) 15 (by norm_num)
    have h7 := bonus_bounds (recentClause job) 5 (by norm_num)
    have h8 := bonus_bounds (sourceClause job) 5 (by norm_num)
    omega

/-- C3: when preferences is absent, `calculateMatchScore` returns 0 for every
job, whatever its posting age and source. -/
theorem calculateMatchScore_absent (lc : Str → Str) (job : Job) :
    calculateMatchScore lc none job = 0 := rfl

/-- C2 (amended): with preferences present, `calculateMatchScore` equals the rule
table capped at 100, the skills clause counting non-empty user skills only. -/
theorem calculateMatchScore_eq_ruleTable (lc : Str → Str) (p : Preferences) (job : Job) :
    calculateMatchScore lc (some p) job = ruleTable lc p job := by
  rw [calculateMatchScore_some, ruleTable, ruleTableWith,
    bonus_eq_ite _ _ _ (titleClause_iff lc p job),
    bonus_eq_ite _ _ _ (descriptionClause_iff lc p job),
    bonus_eq_ite _ _ _ (locationClause_iff p job),
    bonus_eq_ite _ _ _ (modeClause_iff p job),
    bonus_eq_ite _ _ _ (experienceClause_iff p job),
    bonus_eq_ite _ _ _ (skillsClause_iff lc p job),
    bonus_eq_ite _ _ _ (recentClause_iff job),
    bonus_eq_ite _ _ _ (sourceClause_iff job), min_comm]

/-- C2 (as written fails): a user skills text with a trailing comma has an empty
entry, which equals the empty job skill; the rule table as written adds 15, the
code adds nothing. -/
theorem ruleTableAsWritten_differs :
    calculateMatchScore asciiLower (some trailingCommaPrefs) emptySkillJob = 0 ∧
      ruleTableAsWritten asciiLower trailingCommaPrefs emptySkillJob = 15 ∧
      calculateMatchScore asciiLower (some trailingCommaPrefs) emptySkillJob ≠
        ruleTableAsWritten asciiLower trailingCommaPrefs emptySkillJob := by
  decide

theorem mem_split (sep : Char) (s : Str) :
    ∀ piece ∈ split sep s, ∀ c ∈ piece, c ∈ s ∧ c ≠ sep := by
  induction s with
  | nil =>
    intro piece hp c hc
    simp only [split, List.mem_singleton] at hp
    subst hp
    cases hc
  | cons a cs ih =>
    intro piece hp c hc
    rw [split] at hp
    by_cases ha : a = sep
    · rw [if_pos ha, List.mem_cons] at hp
      rcases hp with rfl | hp
      · cases hc
      · exact ⟨List.mem_cons_of_mem _ (ih piece hp c hc).1, (ih piece hp c hc).2⟩
    · rw [if_neg ha] at hp
      cases hsp : split sep cs with
      | nil =>
        rw [hsp] at hp
        simp only [List.mem_singleton] at hp
        subst hp
        simp only [List.mem_singleton] at hc
        subst hc
        exact ⟨List.mem_cons_self _ _, ha⟩
      | cons q qs =>
        rw [hsp] at hp
        simp only [List.mem_cons] at hp
        rcases hp with rfl | hp
        · rcases List.mem_cons.mp hc with rfl | hc
          · exact ⟨List.mem_cons_self _ _, ha⟩
          · have h := ih q (by rw [hsp]; exact List.mem_cons_self _ _) c hc
            exact ⟨List.mem_cons_of_mem _ h.1, h.2⟩
        · have h := ih piece (by rw [hsp]; exact List.mem_cons_of_mem _ hp) c hc
          exact ⟨List.mem_cons_of_mem _ h.1, h.2⟩

theorem trim_eq_nil (s : Str) (h : ∀ c ∈ s, isTrimChar c = true) : trim s = [] := by
  unfold trim
  rw [List.dropWhile_eq_nil_iff.mpr h]
  rfl

theorem parseList_eq_nil (lc : Str → Str) (hlc : lc [] = []) (s : Str)
    (h : ∀ c ∈ s, c = ',' ∨ isTrimChar c = true) : parseList lc s = [] := by
  unfold parseList
  rw [List.filter_eq_nil_iff]
  intro k hk
  rw [List.mem_map] at hk
  obtain ⟨piece, hpiece, rfl⟩ := hk
  have ht : trim piece = [] := by
    apply trim_eq_nil
    intro c hc
    have hm := mem_split ',' s piece hpiece c hc
    rcases h c hm.1 with hcomma | hws
    · exact absurd hcomma hm.2
    · exact hws
  rw [ht, hlc]
  simp

/-- C4: an empty preference field never triggers its clause, and with all
fields empty the score is the recency bonus plus the source bonus. -/
theorem empty_field_no_bonus (lc : Str → Str) (hlc : lc [] = []) (p : Preferences) (job : Job) :
    ((∀ c ∈ p.roleKeywords, c = ',' ∨ isTrimChar c = true) →
        titleClause lc p job = false ∧ descriptionClause lc p job = false) ∧
      (p.preferredLocations = [] → locationClause p job = false) ∧
      (p.preferredMode = [] → modeClause p job = false) ∧
      (p.experienceLevel = [] → experienceClause p job = false) ∧
      ((∀ c ∈ p.skills, c = ',' ∨ isTrimChar c = true) → skillsClause lc p job = false) ∧
      (p.roleKeywords = [] → p.preferredLocations = [] → p.preferredMode = [] →
        p.experienceLevel = [] → p.skills = [] →
        calculateMatchScore lc (some p) job =
          (if job.postedDaysAgo ≤ 2 then 5 else 0) +
            (if job.source = "LinkedIn".toList then 5 else 0)) := by
  have hkw : (∀ c ∈ p.roleKeywords, c = ',' ∨ isTrimChar c = true) →
      titleClause lc p job = false ∧ descriptionClause lc p job = false := by
    intro h
    have hnil := parseList_eq_nil lc hlc p.roleKeywords h
    simp [titleClause, descriptionClause, hnil]
  have hloc : p.preferredLocations = [] → locationClause p job = false := by
    intro h
    simp [locationClause, h]
  have hmode : p.preferredMode = [] → modeClause p job = false := by
    intro h
    simp [modeClause, h]
  have hexp : p.experienceLevel = [] → experienceClause p job = false := by
    intro h
    simp [experienceClause, h]
  have hsk : (∀ c ∈ p.skills, c = ',' ∨ isTrimChar c = true) →
      skillsClause lc p job = false := by
    intro h
    have hnil := parseList_eq_nil lc hlc p.skills h
    unfold skillsClause
    cases job.skills <;> simp [hnil]
  refine ⟨hkw, hloc, hmode, hexp, hsk, ?_⟩
  intro h1 h2 h3 h4 h5
  have hk := hkw (by rw [h1]; intro c hc; cases hc)
  have hs := hsk (by rw [h5]; intro c hc; cases hc)
  rw [calculateMatchScore_some, hk.1, hk.2, hloc h2, hmode h3, hexp h4, hs,
    bonus_eq_ite _ _ _ (recentClause_iff job), bonus_eq_ite _ _ _ (sourceClause_iff job)]
  simp only [bonus, Bool.false_eq_true, if_false]
  split_ifs <;> rfl

/-- C4 at a concrete input: preferences with blank fields score a recent
LinkedIn job at 10. -/
theorem empty_field_no_bonus_witness :
    asciiLower [] = [] ∧
      titleClause asciiLower blankPrefs scenarioJob = false ∧
      skillsClause asciiLower blankPrefs scenarioJob = false ∧
      calculateMatchScore asciiLower (some emptyPrefs) scenarioJob = 10 :=
  ⟨rfl,
   ((empty_field_no_bonus asciiLower rfl blankPrefs scenarioJob).1 (by decide)).1,
   (empty_field_no_bonus asciiLower rfl blankPrefs scenarioJob).2.2.2.2.1 (by decide),
   (empty_field_no_bonus asciiLower rfl emptyPrefs scenarioJob).2.2.2.2.2 rfl rfl rfl rfl rfl⟩

/-- C5: if every clause satisfied by one (job, preferences) pair is satisfied by
another, the first score is at most the second. -/
theorem calculateMatchScore_mono (lc : Str → Str) (p1 p2 : Preferences) (j1 j2 : Job)
    (hTitle : titleClause lc p1 j1 = true → titleClause lc p2 j2 = true)
    (hDescription : descriptionClause lc p1 j1 = true → descriptionClause lc p2 j2 = true)
    (hLocation : locationClause p1 j1 = true → locationClause p2 j2 = true)
    (hMode : modeClause p1 j1 = true → modeClause p2 j2 = true)
    (hExperience : experienceClause p1 j1 = true → experienceClause p2 j2 = true)
    (hSkills : skillsClause lc p1 j1 = true → skillsClause lc p2 j2 = true)
    (hRecent : recentClause j1 = true → recentClause j2 = true)
    (hSource : sourceClause j1 = true → sourceClause j2 = true) :
    calculateMatchScore lc (some p1) j1 ≤ calculateMatchScore lc (some p2) j2 := by
  rw [calculateMatchScore_some, calculateMatchScore_some]
  have h1 := bonus_mono _ _ 25 (by norm_num) hTitle
  have h2 := bonus_mono _ _ 15 (by norm_num) hDescription
  have h3 := bonus_mono _ _ 15 (by norm_num) hLocation
  have h4 := bonus_mono _ _ 10 (by norm_num) hMode
  have h5 := bonus_mono _ _ 10 (by norm_num) hExperience
  have h6 := bonus_mono _ _ 15 (by norm_num) hSkills
  have h7 := bonus_mono _ _ 5 (by norm_num) hRecent
  have h8 := bonus_mono _ _ 5 (by norm_num) hSource
  omega

/-- C5 at a concrete input: adding a matching skill to the preferences of the
scenario raises the score from 50 to 65. -/
theorem calculateMatchScore_mono_witness :
    calculateMatchScore asciiLower (some scenarioPrefs) scenarioJob = 50 ∧
      calculateMatchScore asciiLower (some skilledPrefs) skilledJob = 65 ∧
      calculateMatchScore asciiLower (some scenarioPrefs) scenarioJob ≤
        calculateMatchScore asciiLower (some skilledPrefs) skilledJob :=
  ⟨by decide, by decide,
   calculateMatchScore_mono asciiLower scenarioPrefs skilledPrefs scenarioJob skilledJob
    (by decide) (by decide) (by decide) (by decide) (by decide) (by decide) (by decide)
    (by decide)⟩

/-! ## Lemmas on sorting -/

theorem insertBy_perm {α : Type} (cmp : α → α → Int) (a : α) (l : List α) :
    (insertBy cmp a l).Perm (a :: l) := by
  induction l with
  | nil => exact List.Perm.refl _
  | cons b l ih =>
    unfold insertBy
    split_ifs
    · exact List.Perm.refl _
    · exact (List.Perm.cons b ih).trans (List.Perm.swap a b l)

theorem arraySort_perm {α : Type} (cmp : α → α → Int) (l : List α) :
    (arraySort cmp l).Perm l := by
  induction l with
  | nil => exact List.Perm.refl _
  | cons a l ih =>
    unfold arraySort
    exact (insertBy_perm cmp a _).trans (List.Perm.cons a ih)

theorem insertBy_pairwise {α : Type} (cmp : α → α → Int) (key : α → Int)
    (hcmp : ∀ a b, cmp a b = key a - key b) (a : α) (l : List α)
    (hl : l.Pairwise (fun x y => key x ≤ key y)) :
    (insertBy cmp a l).Pairwise (fun x y => key x ≤ key y) := by
  induction l with
  | nil => simp [insertBy]
  | cons b l ih =>
    rw [List.pairwise_cons] at hl
    unfold insertBy
    split_ifs with h
    · rw [hcmp] at h
      refine List.pairwise_cons.mpr ⟨?_, List.pairwise_cons.mpr hl⟩
      intro y hy
      rcases List.mem_cons.mp hy with rfl | hy
      · omega
      · have := hl.1 y hy
        omega
    · rw [hcmp] at h
      refine List.pairwise_cons.mpr ⟨?_, ih hl.2⟩
      intro y hy
      rcases List.mem_cons.mp ((insertBy_perm cmp a l).subset hy) with rfl | hy
      · omega
      · exact hl.1 y hy

theorem arraySort_pairwise {α : Type} (cmp : α → α → Int) (key : α → Int)
    (hcmp : ∀ a b, cmp a b = key a - key b) (l : List α) :
    (arraySort cmp l).Pairwise (fun x y => key x ≤ key y) := by
  induction l with
  | nil => exact List.Pairwise.nil
  | cons a l ih =>
    unfold arraySort
    exact insertBy_pairwise cmp key hcmp a _ ih

theorem insertBy_filter {α : Type} (cmp : α → α → Int) (key : α → Int)
    (hcmp : ∀ a b, cmp a b = key a - key b) (k : Int) (a : α) (l : List α) :
    (insertBy cmp a l).filter (fun e => decide (key e = k)) =
      (a :: l).filter (fun e => decide (key e = k)) := by
  induction l with
  | nil => rfl
  | cons b l ih =>
    unfold insertBy
    split_ifs with h
    · rfl
    · rw [hcmp] at h
      rw [List.filter_cons, ih]
      by_cases hb : key b = k
      · have ha : ¬ key a = k := by omega
        simp [List.filter_cons, hb, ha]
      · simp [List.filter_cons, hb]

theorem arraySort_filter {α : Type} (cmp : α → α → Int) (key : α → Int)
    (hcmp : ∀ a b, cmp a b = key a - key b) (k : Int) (l : List α) :
    (arraySort cmp l).filter (fun e => decide (key e = k)) =
      l.filter (fun e => decide (key e = k)) := by
  induction l with
  | nil => rfl
  | cons a l ih =>
    unfold arraySort
    rw [insertBy_filter cmp key hcmp, List.filter_cons, ih, List.filter_cons]

theorem arraySort_ascending (cmp : ScoredJob → ScoredJob → Int) (key : ScoredJob → Int)
    (hcmp : ∀ a b, cmp a b = key a - key b) (l : List ScoredJob) :
    SortedAscendingStable key l (arraySort cmp l) :=
  ⟨arraySort_perm cmp l, arraySort_pairwise cmp key hcmp l, fun k =>
    arraySort_filter cmp key hcmp k l⟩

theorem arraySort_descending (cmp : ScoredJob → ScoredJob → Int) (key : ScoredJob → Int)
    (hcmp : ∀ a b, cmp a b = key b - key a) (l : List ScoredJob) :
    SortedDescendingStable key l (arraySort cmp l) := by
  have hneg : ∀ a b, cmp a b = (fun e => - key e) a - (fun e => - key e) b := by
    intro a b
    rw [hcmp]
    show key b - key a = - key a - - key b
    omega
  refine ⟨arraySort_perm cmp l, ?_, ?_⟩
  · refine (arraySort_pairwise cmp _ hneg l).imp ?_
    intro a b hab
    show key b ≤ key a
    have : - key a ≤ - key b := hab
    omega
  · intro k
    have h := arraySort_filter cmp _ hneg (-k) l
    have hfun : (fun e : ScoredJob => decide (key e = k)) =
        (fun e => decide ((fun e => - key e) e = -k)) := by
      funext e
      show decide (key e = k) = decide (- key e = -k)
      by_cases he : key e = k
      · have : - key e = -k := by omega
        simp [he]
      · have : ¬ (- key e = -k) := by omega
        simp [he, this]
    rw [hfun]
    exact h

theorem orZero_eq (x : Int) : orZero x = x := by
  unfold orZero
  split_ifs with h
  · rfl
  · omega

theorem sortJobs_latest (jobs : List ScoredJob) :
    sortJobs jobs "latest".toList =
      arraySort (fun a b => a.job.postedDaysAgo - b.job.postedDaysAgo) jobs := by
  unfold sortJobs
  rw [if_pos rfl]

theorem sortJobs_oldest (jobs : List ScoredJob) :
    sortJobs jobs "oldest".toList =
      arraySort (fun a b => b.job.postedDaysAgo - a.job.postedDaysAgo) jobs := by
  unfold sortJobs
  rw [if_neg (by decide), if_pos rfl]

theorem sortJobs_matchScore (jobs : List ScoredJob) :
    sortJobs jobs "match-score".toList =
      arraySort (fun a b => orZero b.matchScore - orZero a.matchScore) jobs := by
  unfold sortJobs
  rw [if_neg (by decide), if_neg (by decide), if_pos rfl]

theorem sortJobs_salaryHigh (jobs : List ScoredJob) :
    sortJobs jobs "salary-high".toList =
      arraySort (fun a b =>
        extractSalaryValue b.job.salaryRange - extractSalaryValue a.job.salaryRange) jobs := by
  unfold sortJobs
  rw [if_neg (by decide), if_neg (by decide), if_neg (by decide), if_pos rfl]

theorem sortJobs_salaryLow (jobs : List ScoredJob) :
    sortJobs jobs "salary-low".toList =
      arraySort (fun a b =>
        extractSalaryValue a.job.salaryRange - extractSalaryValue b.job.salaryRange) jobs := by
  unfold sortJobs
  rw [if_neg (by decide), if_neg (by decide), if_neg (by decide), if_neg (by decide),
    if_pos rfl]

theorem sortJobs_perm (jobs : List ScoredJob) (sortBy : Str) :
    (sortJobs jobs sortBy).Perm jobs := by
  unfold sortJobs
  split_ifs
  all_goals first | exact arraySort_perm _ _ | exact List.Perm.refl _

/-- C10: for each of the five sort keys, `sortJobs` returns a permutation of
its input, ordered by the key in the stated direction, in which entries with
equal key values keep their input order. -/
theorem sortJobs_sorted_stable (jobs : List ScoredJob) :
    SortedAscendingStable (fun e => e.job.postedDaysAgo) jobs
        (sortJobs jobs "latest".toList) ∧
      SortedDescendingStable (fun e => e.job.postedDaysAgo) jobs
        (sortJobs jobs "oldest".toList) ∧
      SortedDescendingStable (fun e => e.matchScore) jobs
        (sortJobs jobs "match-score".toList) ∧
      SortedDescendingStable (fun e => extractSalaryValue e.job.salaryRange) jobs
        (sortJobs jobs "salary-high".toList) ∧
      SortedAscendingStable (fun e => extractSalaryValue e.job.salaryRange) jobs
        (sortJobs jobs "salary-low".toList) := by
  refine ⟨?_, ?_, ?_, ?_, ?_⟩
  · rw [sortJobs_latest]
    exact arraySort_ascending _ _ (fun _ _ => rfl) jobs
  · rw [sortJobs_oldest]
    exact arraySort_descending _ _ (fun _ _ => rfl) jobs
  · rw [sortJobs_matchScore]
    exact arraySort_descending _ (fun e => e.matchScore)
      (fun a b => by simp only [orZero_eq]) jobs
  · rw [sortJobs_salaryHigh]
    exact arraySort_descending _ _ (fun _ _ => rfl) jobs
  · rw [sortJobs_salaryLow]
    exact arraySort_ascending _ _ (fun _ _ => rfl) jobs

/-! ## Lemmas on the filter -/

theorem ite_false_else (b x : Bool) : (if b = true then false else x) = (!b && x) := by
  cases b <;> rfl

theorem keywordTest_iff (k t co : Str) :
    (!(!k.isEmpty && !includes t k && !includes co k)) = true ↔
      k = [] ∨ k <:+: t ∨ k <:+: co := by
  rw [← includes_iff, ← includes_iff]
  cases k with
  | nil => simp
  | cons a l => cases includes t (a :: l) <;> cases includes co (a :: l) <;> simp

theorem fieldTest_iff (s x : Str) :
    (!(!s.isEmpty && decide (x ≠ s))) = true ↔ s = [] ∨ x = s := by
  cases s with
  | nil => simp
  | cons a l =>
    by_cases h : x = a :: l
    · simp [h]
    · simp [h]

theorem scoreTest_iff (m : Bool) (score threshold : Int) :
    (!(m && decide (score < threshold))) = true ↔ m = false ∨ threshold ≤ score := by
  cases m with
  | false => simp
  | true =>
    by_cases h : score < threshold
    · simp [h]
    · simp [h, Int.not_lt.mp h]

theorem keepJob_iff (lc : Str → Str) (preferences : Option Preferences)
    (statusMap : List (Nat × Str)) (c : FilterControls) (e : ScoredJob) :
    keepJob lc preferences statusMap c e = true ↔
      (lc c.keyword = [] ∨ lc c.keyword <:+: lc e.job.title ∨
          lc c.keyword <:+: lc e.job.company) ∧
        (c.location = [] ∨ e.job.location = c.location) ∧
        (c.mode = [] ∨ e.job.mode = c.mode) ∧
        (c.experience = [] ∨ e.job.experience = c.experience) ∧
        (c.source = [] ∨ e.job.source = c.source) ∧
        (c.status = [] ∨ getJobStatus statusMap e.job.id = c.status) ∧
        (c.matchesOnly = false ∨ minMatchScoreOf preferences ≤ e.matchScore) := by
  unfold keepJob
  simp only [ite_false_else]
  rw [Bool.and_eq_true, keywordTest_iff, Bool.and_eq_true, fieldTest_iff, Bool.and_eq_true,
    fieldTest_iff, Bool.and_eq_true, fieldTest_iff, Bool.and_eq_true, fieldTest_iff,
    Bool.and_eq_true, fieldTest_iff, Bool.and_true, scoreTest_iff]

theorem mem_filterStep (lc : Str → Str) (preferences : Option Preferences)
    (statusMap : List (Nat × Str)) (catalog : List Job) (c : FilterControls) (e : ScoredJob) :
    e ∈ filterStep lc preferences statusMap catalog c ↔
      e ∈ jobsWithScores lc preferences catalog ∧
        keepJob lc preferences statusMap c e = true := by
  unfold filterStep
  exact List.mem_filter

theorem mem_jobsWithScores (lc : Str → Str) (preferences : Option Preferences)
    (catalog : List Job) (e : ScoredJob) :
    e ∈ jobsWithScores lc preferences catalog ↔
      ∃ job ∈ catalog, e = { job := job, matchScore := calculateMatchScore lc preferences job } := by
  unfold jobsWithScores
  rw [List.mem_map]
  constructor
  · rintro ⟨job, hjob, h⟩
    exact ⟨job, hjob, h.symm⟩
  · rintro ⟨job, hjob, h⟩
    exact ⟨job, hjob, h.symm⟩

theorem mem_handleFilter (lc : Str → Str) (preferences : Option Preferences)
    (statusMap : List (Nat × Str)) (catalog : List Job) (c : FilterControls) (e : ScoredJob) :
    e ∈ handleFilter lc preferences statusMap catalog c ↔
      e ∈ filterStep lc preferences statusMap catalog c := by
  unfold handleFilter
  exact (sortJobs_perm _ _).mem_iff

theorem keepJob_noFilter (lc : Str → Str) (hlc : lc [] = []) (preferences : Option Preferences)
    (statusMap : List (Nat × Str)) (sort : Str) (e : ScoredJob) :
    keepJob lc preferences statusMap (noFilterControls sort) e = true := by
  rw [keepJob_iff]
  exact ⟨Or.inl hlc, Or.inl rfl, Or.inl rfl, Or.inl rfl, Or.inl rfl, Or.inl rfl, Or.inl rfl⟩

theorem map_job_jobsWithScores (lc : Str → Str) (preferences : Option Preferences)
    (catalog : List Job) :
    (jobsWithScores lc preferences catalog).map (fun e => e.job) = catalog := by
  unfold jobsWithScores
  rw [List.map_map]
  exact List.map_id _

theorem parseList_engineer (lc : Str → Str)
    (hKeyword : lc "engineer".toList = "engineer".toList) :
    parseList lc "engineer".toList = ["engineer".toList] := by
  have h : parseList lc "engineer".toList =
      [lc "engineer".toList].filter (fun k => !k.isEmpty) := rfl
  rw [h, hKeyword]
  rfl

/-- C6: in the concrete scenario the job scores 25 + 15 + 5 + 5 = 50 and, with
the matches-only toggle on, it is kept by the filter and is in the result of
`handleFilter` for every catalog that contains it. -/
theorem scenario_scores_fifty (lc : Str → Str) (hEmpty : lc [] = [])
    (hKeyword : lc "engineer".toList = "engineer".toList)
    (hTitle : lc "Software Engineer".toList = "software engineer".toList)
    (id : Nat) (company salaryRange description applyUrl : Str)
    (hDescription : ¬ "engineer".toList <:+: lc description)
    (statusMap : List (Nat × Str)) (sort : Str) (catalog : List Job)
    (hCatalog : scenarioJobWith id company salaryRange description applyUrl ∈ catalog) :
    calculateMatchScore lc (some scenarioPrefs)
        (scenarioJobWith id company salaryRange description applyUrl) = 50 ∧
      keepJob lc (some scenarioPrefs) statusMap (matchesOnlyControls sort)
        { job := scenarioJobWith id company salaryRange description applyUrl,
          matchScore := 50 } = true ∧
      { job := scenarioJobWith id company salaryRange description applyUrl, matchScore := 50 } ∈
        handleFilter lc (some scenarioPrefs) statusMap catalog (matchesOnlyControls sort) := by
  have hpl : parseList lc scenarioPrefs.roleKeywords = ["engineer".toList] :=
    parseList_engineer lc hKeyword
  have h1 : titleClause lc scenarioPrefs
      (scenarioJobWith id company salaryRange description applyUrl) = true := by
    rw [titleClause_iff, listedEntries_eq_parseList, hpl]
    refine ⟨"engineer".toList, List.mem_singleton.mpr rfl, ?_⟩
    show "engineer".toList <:+: lc "Software Engineer".toList
    rw [hTitle, ← includes_iff]
    decide
  have h2 : descriptionClause lc scenarioPrefs
      (scenarioJobWith id company salaryRange description applyUrl) = false := by
    rw [← Bool.not_eq_true, descriptionClause_iff, listedEntries_eq_parseList, hpl]
    rintro ⟨k, hk, hin⟩
    rw [List.mem_singleton] at hk
    subst hk
    exact hDescription hin
  have h3 : locationClause scenarioPrefs
      (scenarioJobWith id company salaryRange description applyUrl) = true := by
    rw [locationClause_iff]
    exact ⟨by decide, List.mem_singleton.mpr rfl⟩
  have h4 : modeClause scenarioPrefs
      (scenarioJobWith id company salaryRange description applyUrl) = false := rfl
  have h5 : experienceClause scenarioPrefs
      (scenarioJobWith id company salaryRange description applyUrl) = false := rfl
  have h6 : skillsClause lc scenarioPrefs
      (scenarioJobWith id company salaryRange description applyUrl) = false := by
    rw [← Bool.not_eq_true, skillsClause_iff]
    rintro ⟨u, _, s, hs, _⟩
    cases hs
  have h7 : recentClause
      (scenarioJobWith id company salaryRange description applyUrl) = true := by
    rw [recentClause_iff]
    show (1 : Int) ≤ 2
    decide
  have h8 : sourceClause
      (scenarioJobWith id company salaryRange description applyUrl) = true := by
    rw [sourceClause_iff]
    rfl
  have hscore : calculateMatchScore lc (some scenarioPrefs)
      (scenarioJobWith id company salaryRange description applyUrl) = 50 := by
    rw [calculateMatchScore_some, h1, h2, h3, h4, h5, h6, h7, h8]
    decide
  have hkeep : keepJob lc (some scenarioPrefs) statusMap (matchesOnlyControls sort)
      { job := scenarioJobWith id company salaryRange description applyUrl,
        matchScore := 50 } = true := by
    rw [keepJob_iff]
    refine ⟨Or.inl hEmpty, Or.inl rfl, Or.inl rfl, Or.inl rfl, Or.inl rfl, Or.inl rfl,
      Or.inr ?_⟩
    show minMatchScoreOf (some scenarioPrefs) ≤ 50
    decide
  refine ⟨hscore, hkeep, ?_⟩
  rw [mem_handleFilter, mem_filterStep, mem_jobsWithScores]
  exact ⟨⟨_, hCatalog, by rw [hscore]⟩, hkeep⟩

/-- C6 at a concrete input: the scenario job, alone in the catalog, scores 50 and
is the result of the matches-only filter. -/
theorem scenario_scores_fifty_witness :
    calculateMatchScore asciiLower (some scenarioPrefs) scenarioJob = 50 ∧
      keepJob asciiLower (some scenarioPrefs) [] (matchesOnlyControls [])
        { job := scenarioJob, matchScore := 50 } = true ∧
      { job := scenarioJob, matchScore := 50 } ∈
        handleFilter asciiLower (some scenarioPrefs) [] [scenarioJob] (matchesOnlyControls []) :=
  scenario_scores_fifty asciiLower rfl (by decide) (by decide) 1 "Acme".toList
    "10-15 LPA".toList "Builds internal tools".toList [] (by decide) [] [] [scenarioJob]
    (List.mem_singleton.mpr rfl)

/-- C7: the filter step keeps a scored catalog job exactly when it satisfies
every active predicate; the kept entries are a sublist of the scored catalog,
each one a catalog job with its `calculateMatchScore`. -/
theorem filterStep_retains_iff (lc : Str → Str) (preferences : Option Preferences)
    (statusMap : List (Nat × Str)) (catalog : List Job) (c : FilterControls) :
    (∀ e : ScoredJob, e ∈ filterStep lc preferences statusMap catalog c ↔
        e ∈ jobsWithScores lc preferences catalog ∧
          (lc c.keyword = [] ∨ lc c.keyword <:+: lc e.job.title ∨
            lc c.keyword <:+: lc e.job.company) ∧
          (c.location = [] ∨ e.job.location = c.location) ∧
          (c.mode = [] ∨ e.job.mode = c.mode) ∧
          (c.experience = [] ∨ e.job.experience = c.experience) ∧
          (c.source = [] ∨ e.job.source = c.source) ∧
          (c.status = [] ∨ getJobStatus statusMap e.job.id = c.status) ∧
          (c.matchesOnly = false ∨ minMatchScoreOf preferences ≤ e.matchScore)) ∧
      (filterStep lc preferences statusMap catalog c).Sublist
        (jobsWithScores lc preferences catalog) ∧
      (∀ e ∈ filterStep lc preferences statusMap catalog c, ∃ job ∈ catalog,
        e = { job := job, matchScore := calculateMatchScore lc preferences job }) := by
  refine ⟨?_, ?_, ?_⟩
  · intro e
    rw [mem_filterStep, keepJob_iff]
  · unfold filterStep
    exact List.filter_sublist _
  · intro e he
    rw [mem_filterStep] at he
    exact (mem_jobsWithScores lc preferences catalog e).mp he.1

/-- C8: with every criterion empty and the matches-only toggle off, the result
of `handleFilter` is a permutation of the scored catalog, for every sort key:
each catalog job appears exactly once. -/
theorem handleFilter_no_criteria_perm (lc : Str → Str) (hlc : lc [] = [])
    (preferences : Option Preferences) (statusMap : List (Nat × Str)) (catalog : List Job)
    (sort : Str) :
    (handleFilter lc preferences statusMap catalog (noFilterControls sort)).Perm
        (jobsWithScores lc preferences catalog) ∧
      ((handleFilter lc preferences statusMap catalog (noFilterControls sort)).map
        (fun e => e.job)).Perm catalog := by
  have hfilter : filterStep lc preferences statusMap catalog (noFilterControls sort) =
      jobsWithScores lc preferences catalog := by
    unfold filterStep
    rw [List.filter_eq_self]
    intro e _
    exact keepJob_noFilter lc hlc preferences statusMap sort e
  have hperm : (handleFilter lc preferences statusMap catalog (noFilterControls sort)).Perm
      (jobsWithScores lc preferences catalog) := by
    unfold handleFilter
    rw [hfilter]
    exact sortJobs_perm _ _
  refine ⟨hperm, ?_⟩
  have h := hperm.map (fun e => e.job)
  rw [map_job_jobsWithScores] at h
  exact h

/-- C8 at a concrete input: a three-entry catalog sorted by salary, highest
first. -/
theorem handleFilter_no_criteria_perm_witness :
    asciiLower [] = [] ∧
      ((handleFilter asciiLower (some scenarioPrefs) [] sampleCatalog
        (noFilterControls "salary-high".toList)).map (fun e => e.job)).Perm sampleCatalog ∧
      (handleFilter asciiLower (some scenarioPrefs) [] sampleCatalog
        (noFilterControls "salary-high".toList)).map (fun e => e.job.id) = [1, 3, 7] :=
  ⟨rfl,
   (handleFilter_no_criteria_perm asciiLower rfl (some scenarioPrefs) [] sampleCatalog
    "salary-high".toList).2,
   by decide⟩

/-- C9 (failing input): with `minMatchScore` set to 0 the threshold used by
`handleFilter` is 40, and a job that scores 0 is removed by the matches-only
filter although 0 ≥ 0. -/
theorem zero_threshold_drops_job :
    zeroThresholdPrefs.minMatchScore = 0 ∧
      calculateMatchScore asciiLower (some zeroThresholdPrefs) emptySkillJob = 0 ∧
      minMatchScoreOf (some zeroThresholdPrefs) = 40 ∧
      handleFilter asciiLower (some zeroThresholdPrefs) [] [emptySkillJob]
        (matchesOnlyControls []) = [] := by
  decide

/-! ## Lemmas on salary values -/

theorem digitsValue_eq_decimalValue (run : Str) : digitsValue run = decimalValue run := by
  induction run using List.reverseRecOn with
  | nil => rfl
  | append_singleton l c ih =>
    unfold digitsValue decimalValue at *
    rw [List.foldl_append, List.reverse_append, List.reverse_singleton, List.singleton_append,
      List.map_cons, Nat.ofDigits_cons, ← ih]
    simp only [List.foldl_cons, List.foldl_nil, Nat.cast_id]
    omega

theorem parseInt_eq_toDouble (run : Str) : parseInt run = toDouble (decimalValue run) := by
  unfold parseInt
  rw [digitsValue_eq_decimalValue]

theorem toDouble_of_lt (n : Nat) (h : n < 2 ^ 53) : toDouble n = n := by
  unfold toDouble
  rw [if_pos (by norm_num at h; exact h)]

theorem dropWhile_nonDigit_append (pre rest : Str) (hpre : ∀ c ∈ pre, c.isDigit = false) :
    (pre ++ rest).dropWhile (fun c => !c.isDigit) = rest.dropWhile (fun c => !c.isDigit) := by
  induction pre with
  | nil => rfl
  | cons a l ih =>
    have ha : a.isDigit = false := hpre a (List.mem_cons_self _ _)
    rw [List.cons_append, List.dropWhile_cons]
    simp only [ha, Bool.not_false, if_true]
    exact ih (fun c hc => hpre c (List.mem_cons_of_mem _ hc))

theorem takeWhile_digit_append (run post : Str) (hrun : ∀ c ∈ run, c.isDigit = true)
    (hpost : ∀ c ∈ post.head?, c.isDigit = false) :
    (run ++ post).takeWhile Char.isDigit = run := by
  induction run with
  | nil =>
    cases post with
    | nil => rfl
    | cons a l =>
      have ha : a.isDigit = false := hpost a rfl
      rw [List.nil_append, List.takeWhile_cons]
      simp only [ha, Bool.false_eq_true, if_false]
  | cons a l ih =>
    have ha : a.isDigit = true := hrun a (List.mem_cons_self _ _)
    rw [List.cons_append, List.takeWhile_cons]
    simp only [ha, if_true]
    rw [ih (fun c hc => hrun c (List.mem_cons_of_mem _ hc))]

theorem firstDigitRun_of_isFirstDigitRun (s run : Str) (h : IsFirstDigitRun s run) :
    firstDigitRun s = some run := by
  obtain ⟨pre, post, hs, hpre, hne, hrun, hpost⟩ := h
  subst hs
  unfold firstDigitRun
  rw [List.append_assoc, dropWhile_nonDigit_append pre _ hpre]
  cases run with
  | nil => exact absurd rfl hne
  | cons a l =>
    have ha : a.isDigit = true := hrun a (List.mem_cons_self _ _)
    have hd : ((a :: l) ++ post).dropWhile (fun c => !c.isDigit) = (a :: l) ++ post := by
      rw [List.cons_append, List.dropWhile_cons]
      simp only [ha, Bool.not_true, Bool.false_eq_true, if_false]
    simp only [hd]
    rw [takeWhile_digit_append (a :: l) post hrun hpost]
    rfl

theorem firstDigitRun_none (s : Str) (h : ∀ c ∈ s, c.isDigit = false) :
    firstDigitRun s = none := by
  unfold firstDigitRun
  have hd : s.dropWhile (fun c => !c.isDigit) = [] := by
    rw [List.dropWhile_eq_nil_iff]
    intro c hc
    rw [h c hc]
    rfl
  simp only [hd]
  rfl

theorem exists_isFirstDigitRun (s : Str) (h : ∃ c ∈ s, c.isDigit = true) :
    ∃ run, IsFirstDigitRun s run := by
  have hrest : s.dropWhile (fun c => !c.isDigit) ≠ [] := by
    intro hnil
    rw [List.dropWhile_eq_nil_iff] at hnil
    obtain ⟨c, hc, hd⟩ := h
    have := hnil c hc
    rw [hd] at this
    exact absurd this (by decide)
  refine ⟨(s.dropWhile (fun c => !c.isDigit)).takeWhile Char.isDigit,
    s.takeWhile (fun c => !c.isDigit),
    (s.dropWhile (fun c => !c.isDigit)).dropWhile Char.isDigit, ?_, ?_, ?_, ?_, ?_⟩
  · rw [List.append_assoc, List.takeWhile_append_dropWhile, List.takeWhile_append_dropWhile]
  · intro c hc
    have := List.mem_takeWhile_imp hc
    simpa using this
  · cases hr : s.dropWhile (fun c => !c.isDigit) with
    | nil => exact absurd hr hrest
    | cons a l =>
      have ha := List.head_dropWhile_not (fun c : Char => !c.isDigit) s hrest
      simp only [hr, List.head_cons, Bool.not_eq_true, Bool.not_eq_false'] at ha
      rw [List.takeWhile_cons]
      simp [ha]
  · intro c hc
    exact List.mem_takeWhile_imp hc
  · intro c hc
    cases hp : (s.dropWhile (fun c => !c.isDigit)).dropWhile Char.isDigit with
    | nil => rw [hp] at hc; cases hc
    | cons a l =>
      rw [hp] at hc
      simp only [List.head?_cons, Option.mem_def, Option.some.injEq] at hc
      subst hc
      have hne : (s.dropWhile (fun c => !c.isDigit)).dropWhile Char.isDigit ≠ [] := by
        rw [hp]; exact List.cons_ne_nil _ _
      have ha := List.head_dropWhile_not Char.isDigit _ hne
      simp only [hp, List.head_cons] at ha
      simpa using ha

/-- C11 (as written fails): the first run of digits of the text is
`9007199254740993`, and `extractSalaryValue` returns `9007199254740992`, the
nearest JavaScript number. -/
theorem extractSalaryValue_rounds :
    IsFirstDigitRun largeSalaryText "9007199254740993".toList ∧
      decimalValue "9007199254740993".toList = 9007199254740993 ∧
      extractSalaryValue largeSalaryText = 9007199254740992 := by
  refine ⟨⟨[], " a year".toList, by decide, by decide, by decide, by decide, by decide⟩, ?_,
    by decide⟩
  rw [← digitsValue_eq_decimalValue]
  decide

/-- C11 (amended): `extractSalaryValue` returns the JavaScript number nearest to
the numeric value of the leftmost maximal run of decimal digits of the text
(which exists as soon as the text has a digit), that is the value itself when it
is below `2^53`; and it returns 0 when the text has no digit. -/
theorem extractSalaryValue_first_run (s : Str) :
    (∀ run, IsFirstDigitRun s run →
        extractSalaryValue s = (toDouble (decimalValue run) : Int) ∧
        (decimalValue run < 2 ^ 53 → extractSalaryValue s = (decimalValue run : Int))) ∧
      ((∃ c ∈ s, c.isDigit = true) → ∃ run, IsFirstDigitRun s run) ∧
      ((∀ c ∈ s, c.isDigit = false) → extractSalaryValue s = 0) := by
  refine ⟨?_, exists_isFirstDigitRun s, ?_⟩
  · intro run h
    have hv : extractSalaryValue s = (toDouble (decimalValue run) : Int) := by
      unfold extractSalaryValue
      rw [firstDigitRun_of_isFirstDigitRun s run h]
      simp only [parseInt_eq_toDouble]
    refine ⟨hv, fun hlt => ?_⟩
    rw [hv, toDouble_of_lt _ hlt]
  · intro h
    unfold extractSalaryValue
    rw [firstDigitRun_none s h]

/-- In a salary text with digit grouping the first run of digits is the first
group: `extractSalaryValue('1,50,000 - 2,00,000')` is 1. -/
theorem extractSalaryValue_grouped_digits :
    extractSalaryValue "1,50,000 - 2,00,000".toList = 1 := by
  decide

/-- The salaries `2^53` and `2^53 + 1` are the same JavaScript number, so the
salary sorts leave the two entries in their input order. -/
theorem sortJobs_rounded_salaries_keep_order :
    (sortJobs roundedSalaryJobs "salary-high".toList).map (fun e => e.job.id) = [1, 2] ∧
      (sortJobs roundedSalaryJobs.reverse "salary-high".toList).map (fun e => e.job.id) =
        [2, 1] := by
  decide

/-! ## Lemmas on the status ledger -/

theorem mem_STATUS_VALUES (s : Str) :
    s ∈ STATUS_VALUES ↔ s = "Not Applied".toList ∨ s = "Applied".toList ∨
      s = "Rejected".toList ∨ s = "Selected".toList := by
  unfold STATUS_VALUES
  rw [List.mem_cons, List.mem_cons, List.mem_cons, List.mem_singleton]

theorem ne_nil_of_mem_STATUS_VALUES (s : Str) (h : s ∈ STATUS_VALUES) : s.isEmpty = false := by
  rw [mem_STATUS_VALUES] at h
  rcases h with rfl | rfl | rfl | rfl <;> rfl

theorem contains_STATUS_VALUES (s : Str) : STATUS_VALUES.contains s = true ↔ s ∈ STATUS_VALUES := by
  unfold List.contains
  exact List.elem_iff

theorem getJobStatus_of_valid (map : List (Nat × Str)) (jobId : Nat) (s : Str)
    (hl : map.lookup jobId = some s) (hs : s ∈ STATUS_VALUES) : getJobStatus map jobId = s := by
  unfold getJobStatus
  rw [hl]
  simp only [ne_nil_of_mem_STATUS_VALUES s hs, (contains_STATUS_VALUES s).mpr hs, Bool.not_false,
    Bool.and_self, if_true]

theorem getJobStatus_of_invalid (map : List (Nat × Str)) (jobId : Nat) (s : Str)
    (hl : map.lookup jobId = some s) (hs : s ∉ STATUS_VALUES) :
    getJobStatus map jobId = "Not Applied".toList := by
  unfold getJobStatus
  rw [hl]
  have hc : STATUS_VALUES.contains s = false := by
    rw [← Bool.not_eq_true, contains_STATUS_VALUES]
    exact hs
  simp only [hc, Bool.and_false, Bool.false_eq_true, if_false]

theorem getJobStatus_of_absent (map : List (Nat × Str)) (jobId : Nat)
    (hl : map.lookup jobId = none) : getJobStatus map jobId = "Not Applied".toList := by
  unfold getJobStatus
  rw [hl]

/-- C12: `getJobStatus` always returns one of the four status values: the stored
value when it is one of the four, and `Not Applied` when the identifier has no
entry or its stored value is anything else. -/
theorem getJobStatus_total (map : List (Nat × Str)) (jobId : Nat) :
    getJobStatus map jobId ∈ STATUS_VALUES ∧
      (∀ s, map.lookup jobId = some s → s ∈ STATUS_VALUES → getJobStatus map jobId = s) ∧
      (∀ s, map.lookup jobId = some s → s ∉ STATUS_VALUES →
        getJobStatus map jobId = "Not Applied".toList) ∧
      (map.lookup jobId = none → getJobStatus map jobId = "Not Applied".toList) := by
  have hNA : "Not Applied".toList ∈ STATUS_VALUES := (mem_STATUS_VALUES _).mpr (Or.inl rfl)
  refine ⟨?_, fun s hl hs => getJobStatus_of_valid map jobId s hl hs,
    fun s hl hs => getJobStatus_of_invalid map jobId s hl hs,
    fun hl => getJobStatus_of_absent map jobId hl⟩
  cases hl : map.lookup jobId with
  | none =>
    rw [getJobStatus_of_absent map jobId hl]
    exact hNA
  | some s =>
    by_cases hs : s ∈ STATUS_VALUES
    · rw [getJobStatus_of_valid map jobId s hl hs]
      exact hs
    · rw [getJobStatus_of_invalid map jobId s hl hs]
      exact hNA

theorem lookup_setProperty_self (key : Nat) (value : Str) (map : List (Nat × Str)) :
    (setProperty key value map).lookup key = some value := by
  induction map with
  | nil => simp [setProperty, List.lookup]
  | cons e rest ih =>
    obtain ⟨k, v⟩ := e
    unfold setProperty
    by_cases hk : k = key
    · rw [if_pos hk]
      simp [List.lookup]
    · rw [if_neg hk, List.lookup_cons]
      have hb : (key == k) = false := by
        rw [beq_eq_false_iff_ne]
        exact fun h => hk h.symm
      rw [hb]
      exact ih

theorem lookup_setProperty_other (key other : Nat) (value : Str) (map : List (Nat × Str))
    (h : other ≠ key) : (setProperty key value map).lookup other = map.lookup other := by
  induction map with
  | nil =>
    have hb : (other == key) = false := by rw [beq_eq_false_iff_ne]; exact h
    simp [setProperty, List.lookup, hb]
  | cons e rest ih =>
    obtain ⟨k, v⟩ := e
    unfold setProperty
    by_cases hk : k = key
    · rw [if_pos hk]
      subst hk
      have hb : (other == k) = false := by rw [beq_eq_false_iff_ne]; exact h
      rw [List.lookup_cons, List.lookup_cons, hb]
    · rw [if_neg hk, List.lookup_cons, List.lookup_cons, ih]

theorem setJobStatus_invalid (catalog : List Job) (now : Str) (mapWriteOk updatesWriteOk : Bool)
    (st : Storage) (jobId : Nat) (status : Str) (hs : status ∉ STATUS_VALUES) :
    setJobStatus catalog now mapWriteOk updatesWriteOk st jobId status = st := by
  have hc : STATUS_VALUES.contains status = false := by
    rw [← Bool.not_eq_true, contains_STATUS_VALUES]
    exact hs
  unfold setJobStatus
  rw [hc]
  rfl

theorem statusMap_setJobStatus (catalog : List Job) (now : Str) (updatesWriteOk : Bool)
    (st : Storage) (jobId : Nat) (status : Str) (hs : status ∈ STATUS_VALUES) :
    getJobStatusMap (setJobStatus catalog now true updatesWriteOk st jobId status) =
      setProperty jobId status (getJobStatusMap st) := by
  have hc : STATUS_VALUES.contains status = true := (contains_STATUS_VALUES status).mpr hs
  unfold setJobStatus
  rw [hc]
  simp only [Bool.not_true, Bool.false_eq_true, if_false, if_true]
  split_ifs
  · cases catalog.find? (fun j => decide (j.id = jobId)) <;> rfl
  · cases catalog.find? (fun j => decide (j.id = jobId)) <;> rfl
  · rfl

theorem statusUpdates_setJobStatus_recorded (catalog : List Job) (now : Str)
    (mapWriteOk : Bool) (st : Storage) (jobId : Nat) (status : Str) (job : Job)
    (hs : status ∈ STATUS_VALUES) (hna : status ≠ "Not Applied".toList)
    (hjob : catalog.find? (fun j => decide (j.id = jobId)) = some job) :
    getStatusUpdatesList (setJobStatus catalog now mapWriteOk true st jobId status) =
      (statusEvent job jobId status now :: getStatusUpdatesList st).take 50 := by
  have hc : STATUS_VALUES.contains status = true := (contains_STATUS_VALUES status).mpr hs
  unfold setJobStatus
  rw [hc]
  simp only [Bool.not_true, Bool.false_eq_true, if_false, if_true, hjob, if_pos hna]
  cases mapWriteOk <;> rfl

theorem statusUpdates_setJobStatus_cases (catalog : List Job) (now : Str)
    (mapWriteOk updatesWriteOk : Bool) (st : Storage) (jobId : Nat) (status : Str) :
    getStatusUpdatesList (setJobStatus catalog now mapWriteOk updatesWriteOk st jobId status) =
        getStatusUpdatesList st ∨
      ∃ job, getStatusUpdatesList
          (setJobStatus catalog now mapWriteOk updatesWriteOk st jobId status) =
        (statusEvent job jobId status now :: getStatusUpdatesList st).take 50 := by
  unfold setJobStatus
  cases hc : STATUS_VALUES.contains status <;> cases mapWriteOk <;> cases updatesWriteOk <;>
    cases hf : catalog.find? (fun j => decide (j.id = jobId)) <;>
    by_cases hna : status = "Not Applied".toList <;>
    simp only [hna, Bool.not_true, Bool.not_false, Bool.false_eq_true, if_true, if_false, ne_eq,
      not_true_eq_false, not_false_eq_true] <;>
    first
      | exact Or.inl trivial
      | (left; rfl)
      | (right; exact ⟨_, rfl⟩)

theorem statusUpdates_setJobStatus_length (catalog : List Job) (now : Str)
    (mapWriteOk updatesWriteOk : Bool) (st : Storage) (jobId : Nat) (status : Str)
    (h : (getStatusUpdatesList st).length ≤ 50) :
    (getStatusUpdatesList
      (setJobStatus catalog now mapWriteOk updatesWriteOk st jobId status)).length ≤ 50 := by
  rcases statusUpdates_setJobStatus_cases catalog now mapWriteOk updatesWriteOk st jobId status
    with hsame | ⟨job, hnew⟩
  · rw [hsame]
    exact h
  · rw [hnew, List.length_take]
    exact Nat.min_le_left _ _

theorem runStatusCalls_length (catalog : List Job) (calls : List StatusCall) :
    ∀ st : Storage, (getStatusUpdatesList st).length ≤ 50 →
      (getStatusUpdatesList (runStatusCalls catalog st calls)).length ≤ 50 := by
  induction calls with
  | nil => intro st h; exact h
  | cons c rest ih =>
    intro st h
    unfold runStatusCalls
    rw [List.foldl_cons]
    exact ih _ (statusUpdates_setJobStatus_length catalog c.now c.mapWriteOk c.updatesWriteOk
      st c.jobId c.status h)

/-- C13: after `setJobStatus(id, s)` with `s` one of the four status values and
the write of the status map succeeding, `getJobStatus(id)` returns `s`. -/
theorem setJobStatus_then_get (catalog : List Job) (now : Str) (updatesWriteOk : Bool)
    (st : Storage) (jobId : Nat) (status : Str) (hs : status ∈ STATUS_VALUES) :
    getJobStatus
      (getJobStatusMap (setJobStatus catalog now true updatesWriteOk st jobId status))
      jobId = status := by
  rw [statusMap_setJobStatus catalog now updatesWriteOk st jobId status hs]
  exact getJobStatus_of_valid _ _ _ (lookup_setProperty_self jobId status _) hs

/-- C13 at a concrete input: setting `Rejected` on a stored `Applied`. -/
theorem setJobStatus_then_get_witness :
    "Rejected".toList ∈ STATUS_VALUES ∧
      getJobStatus
        (getJobStatusMap (setJobStatus sampleCatalog sampleNow true true
          { emptyStorage with jobTrackerStatus := some [(3, "Applied".toList)] } 3
          "Rejected".toList)) 3 = "Rejected".toList :=
  ⟨by decide, setJobStatus_then_get sampleCatalog sampleNow true _ 3 "Rejected".toList
    (by decide)⟩

/-- C14: `setJobStatus` with a status outside the four values returns the
storage unchanged: the status map, the status-update log and the result of
`getJobStatus` for every identifier are what they were. -/
theorem setJobStatus_invalid_noop (catalog : List Job) (now : Str)
    (mapWriteOk updatesWriteOk : Bool) (st : Storage) (jobId : Nat) (status : Str)
    (hs : status ∉ STATUS_VALUES) :
    setJobStatus catalog now mapWriteOk updatesWriteOk st jobId status = st ∧
      getJobStatusMap (setJobStatus catalog now mapWriteOk updatesWriteOk st jobId status) =
        getJobStatusMap st ∧
      getStatusUpdatesList (setJobStatus catalog now mapWriteOk updatesWriteOk st jobId status) =
        getStatusUpdatesList st ∧
      ∀ other : Nat,
        getJobStatus
          (getJobStatusMap (setJobStatus catalog now mapWriteOk updatesWriteOk st jobId status))
          other = getJobStatus (getJobStatusMap st) other := by
  rw [setJobStatus_invalid catalog now mapWriteOk updatesWriteOk st jobId status hs]
  exact ⟨rfl, rfl, rfl, fun _ => rfl⟩

/-- C14 at a concrete input: the status `bogus` on a storage with a full log. -/
theorem setJobStatus_invalid_noop_witness :
    "bogus".toList ∉ STATUS_VALUES ∧
      setJobStatus sampleCatalog sampleNow true true fullLogStorage 7 "bogus".toList =
        fullLogStorage :=
  ⟨by decide,
   (setJobStatus_invalid_noop sampleCatalog sampleNow true true fullLogStorage 7
    "bogus".toList (by decide)).1⟩

theorem storedLog_setJobStatus_recorded (catalog : List Job) (now : Str)
    (mapWriteOk : Bool) (st : Storage) (jobId : Nat) (status : Str) (job : Job)
    (hs : status ∈ STATUS_VALUES) (hna : status ≠ "Not Applied".toList)
    (hjob : catalog.find? (fun j => decide (j.id = jobId)) = some job) :
    (setJobStatus catalog now mapWriteOk true st jobId status).jobTrackerStatusUpdates =
      some ((statusEvent job jobId status now :: getStatusUpdatesList st).take 50) := by
  have hc : STATUS_VALUES.contains status = true := (contains_STATUS_VALUES status).mpr hs
  unfold setJobStatus
  rw [hc]
  simp only [Bool.not_true, Bool.false_eq_true, if_false, if_true, hjob, if_pos hna]
  cases mapWriteOk <;> rfl

theorem storedLog_setJobStatus_cases (catalog : List Job) (now : Str)
    (mapWriteOk updatesWriteOk : Bool) (st : Storage) (jobId : Nat) (status : Str) :
    (setJobStatus catalog now mapWriteOk updatesWriteOk st jobId status).jobTrackerStatusUpdates =
        st.jobTrackerStatusUpdates ∨
      ∃ job, (setJobStatus catalog now mapWriteOk updatesWriteOk st jobId
          status).jobTrackerStatusUpdates =
        some ((statusEvent job jobId status now :: getStatusUpdatesList st).take 50) := by
  unfold setJobStatus
  cases hc : STATUS_VALUES.contains status <;> cases mapWriteOk <;> cases updatesWriteOk <;>
    cases hf : catalog.find? (fun j => decide (j.id = jobId)) <;>
    by_cases hna : status = "Not Applied".toList <;>
    simp only [hna, Bool.not_true, Bool.not_false, Bool.false_eq_true, if_true, if_false, ne_eq,
      not_true_eq_false, not_false_eq_true] <;>
    first
      | exact Or.inl trivial
      | (right; exact ⟨_, rfl⟩)

theorem getStatusUpdatesList_of_stored (st : Storage) (log : List StatusUpdate)
    (h : st.jobTrackerStatusUpdates = some log) : getStatusUpdatesList st = log := by
  unfold getStatusUpdatesList
  rw [h]

theorem getStatusUpdatesList_of_missing (st : Storage)
    (h : st.jobTrackerStatusUpdates = none) : getStatusUpdatesList st = [] := by
  unfold getStatusUpdatesList
  rw [h]

theorem logWithin50_setJobStatus (catalog : List Job) (now : Str)
    (mapWriteOk updatesWriteOk : Bool) (st : Storage) (jobId : Nat) (status : Str)
    (h : LogWithin50 st) :
    LogWithin50 (setJobStatus catalog now mapWriteOk updatesWriteOk st jobId status) := by
  intro log hlog
  rcases storedLog_setJobStatus_cases catalog now mapWriteOk updatesWriteOk st jobId status
    with hsame | ⟨job, hnew⟩
  · rw [hsame] at hlog
    exact h log hlog
  · rw [hnew] at hlog
    simp only [Option.some.injEq] at hlog
    rw [← hlog, List.length_take]
    exact Nat.min_le_left _ _

theorem logWithin50_runStatusCalls (catalog : List Job) (calls : List StatusCall) :
    ∀ st : Storage, LogWithin50 st → LogWithin50 (runStatusCalls catalog st calls) := by
  induction calls with
  | nil => intro st h; exact h
  | cons c rest ih =>
    intro st h
    unfold runStatusCalls
    rw [List.foldl_cons]
    exact ih _ (logWithin50_setJobStatus catalog c.now c.mapWriteOk c.updatesWriteOk st
      c.jobId c.status h)

theorem find_of_exists_id (catalog : List Job) (jobId : Nat)
    (h : ∃ job ∈ catalog, job.id = jobId) :
    ∃ job, catalog.find? (fun j => decide (j.id = jobId)) = some job ∧ job ∈ catalog ∧
      job.id = jobId := by
  cases hf : catalog.find? (fun j => decide (j.id = jobId)) with
  | none =>
    obtain ⟨job, hmem, hid⟩ := h
    have := List.find?_eq_none.mp hf job hmem
    simp only [hid, decide_True, not_true_eq_false] at this
  | some job =>
    refine ⟨job, rfl, List.mem_of_find?_eq_some hf, ?_⟩
    have := List.find?_some hf
    simpa using this

/-- For an identifier that no catalog job has, `setJobStatus` with a valid status
stores the status and leaves the stored status-update log as it is. -/
theorem setJobStatus_unknown_id (catalog : List Job) (now : Str) (updatesWriteOk : Bool)
    (st : Storage) (jobId : Nat) (status : Str) (hs : status ∈ STATUS_VALUES)
    (hjob : catalog.find? (fun j => decide (j.id = jobId)) = none) :
    (setJobStatus catalog now true updatesWriteOk st jobId status).jobTrackerStatusUpdates =
        st.jobTrackerStatusUpdates ∧
      getJobStatus
        (getJobStatusMap (setJobStatus catalog now true updatesWriteOk st jobId status))
        jobId = status := by
  constructor
  · have hc : STATUS_VALUES.contains status = true := (contains_STATUS_VALUES status).mpr hs
    unfold setJobStatus
    rw [hc]
    simp only [Bool.not_true, Bool.false_eq_true, if_false, if_true, hjob]
    split_ifs <;> rfl
  · rw [statusMap_setJobStatus catalog now updatesWriteOk st jobId status hs]
    exact getJobStatus_of_valid _ _ _ (lookup_setProperty_self jobId status _) hs

/-- C15: for every identifier of a catalog job and every status among `Applied`,
`Rejected`, `Selected`, a `setJobStatus` whose log write succeeds stores a log
that starts with exactly one new event for the identifier and the status (with
the title and company of the catalog job found for the identifier), continues
with the previous entries in their order, and is cut to 50 entries. -/
theorem setJobStatus_prepends_event (catalog : List Job) (now : Str) (mapWriteOk : Bool)
    (st : Storage) (jobId : Nat) (status : Str)
    (hs : status = "Applied".toList ∨ status = "Rejected".toList ∨ status = "Selected".toList)
    (hid : ∃ job ∈ catalog, job.id = jobId) :
    ∃ job, job ∈ catalog ∧ job.id = jobId ∧
      (∀ previous, st.jobTrackerStatusUpdates = some previous →
        (setJobStatus catalog now mapWriteOk true st jobId status).jobTrackerStatusUpdates =
          some (({ jobId := jobId, title := job.title, company := job.company,
                   status := status, dateChanged := now } :: previous).take 50)) ∧
      (st.jobTrackerStatusUpdates = none →
        (setJobStatus catalog now mapWriteOk true st jobId status).jobTrackerStatusUpdates =
          some [{ jobId := jobId, title := job.title, company := job.company,
                  status := status, dateChanged := now }]) := by
  have hv : status ∈ STATUS_VALUES := (mem_STATUS_VALUES status).mpr (Or.inr hs)
  have hna : status ≠ "Not Applied".toList := by
    rcases hs with rfl | rfl | rfl <;> decide
  obtain ⟨job, hfind, hmem, hjid⟩ := find_of_exists_id catalog jobId hid
  have hrec := storedLog_setJobStatus_recorded catalog now mapWriteOk st jobId status job hv hna
    hfind
  refine ⟨job, hmem, hjid, ?_, ?_⟩
  · intro previous hprev
    rw [hrec, getStatusUpdatesList_of_stored st previous hprev]
    rfl
  · intro hnone
    rw [hrec, getStatusUpdatesList_of_missing st hnone]
    rfl

/-- C15 at a concrete input: `Selected` for catalog job 3 on the numbered log of
50 entries puts the event first and keeps entries 0 to 48. -/
theorem setJobStatus_prepends_event_witness :
    (∃ job ∈ sampleCatalog, job.id = 3) ∧
      ((setJobStatus sampleCatalog sampleNow true true numberedLogStorage 3
          "Selected".toList).jobTrackerStatusUpdates.map
        (fun log => log.map (fun u => (u.jobId, u.status)))) =
        some ((3, "Selected".toList) ::
          (List.range 49).map (fun i => (i, "Rejected".toList))) := by
  refine ⟨by decide, ?_⟩
  obtain ⟨job, _, _, hstored, _⟩ :=
    setJobStatus_prepends_event sampleCatalog sampleNow true numberedLogStorage 3
      "Selected".toList (Or.inr (Or.inr rfl)) (by decide)
  rw [hstored numberedLog rfl]
  rfl

/-- C16: a stored status-update log of at most 50 entries has at most 50 entries
after every sequence of `setJobStatus` calls; and on a stored log of exactly 50
entries a transition that records an event stores the event first, followed by
the previous entries without the last one. -/
theorem statusUpdates_bounded (catalog : List Job) (st : Storage) (h : LogWithin50 st) :
    (∀ calls : List StatusCall, LogWithin50 (runStatusCalls catalog st calls)) ∧
      (∀ log, st.jobTrackerStatusUpdates = some log → log.length = 50 →
        ∀ (now : Str) (mapWriteOk : Bool) (jobId : Nat) (status : Str) (job : Job),
          status ∈ STATUS_VALUES → status ≠ "Not Applied".toList →
          catalog.find? (fun j => decide (j.id = jobId)) = some job →
          (setJobStatus catalog now mapWriteOk true st jobId status).jobTrackerStatusUpdates =
            some ({ jobId := jobId, title := job.title, company := job.company,
                    status := status, dateChanged := now } :: log.dropLast)) := by
  refine ⟨fun calls => logWithin50_runStatusCalls catalog calls st h, ?_⟩
  intro log hlog hlen now mapWriteOk jobId status job hs hna hjob
  rw [storedLog_setJobStatus_recorded catalog now mapWriteOk st jobId status job hs hna hjob,
    getStatusUpdatesList_of_stored st log hlog, List.dropLast_eq_take, hlen]
  rfl

theorem logWithin50_numberedLogStorage : LogWithin50 numberedLogStorage := by
  intro log hlog
  have hl : log = numberedLog := by
    have h : some numberedLog = some log := hlog
    exact (Option.some.inj h).symm
  rw [hl]
  decide

/-- C16 at a concrete input: on the numbered log of 50 entries, `Selected` for
catalog job 3 stores the event followed by entries 0 to 48 (entry 49, the
oldest, is dropped), and the log stays within 50 entries over three calls. -/
theorem statusUpdates_bounded_witness :
    LogWithin50 numberedLogStorage ∧
      LogWithin50 (runStatusCalls sampleCatalog numberedLogStorage
        [{ jobId := 1, status := "Applied".toList, now := sampleNow, mapWriteOk := true,
           updatesWriteOk := true },
         { jobId := 3, status := "Selected".toList, now := sampleNow, mapWriteOk := true,
           updatesWriteOk := true },
         { jobId := 1, status := "Not Applied".toList, now := sampleNow, mapWriteOk := true,
           updatesWriteOk := true }]) ∧
      ((setJobStatus sampleCatalog sampleNow true true numberedLogStorage 3
          "Selected".toList).jobTrackerStatusUpdates.map
        (fun log => (log.length, log.map (fun u => u.jobId)))) =
        some (50, 3 :: List.range 49) :=
  ⟨logWithin50_numberedLogStorage,
   (statusUpdates_bounded sampleCatalog numberedLogStorage logWithin50_numberedLogStorage).1 _,
   by
    rw [(statusUpdates_bounded sampleCatalog numberedLogStorage
      logWithin50_numberedLogStorage).2 numberedLog rfl (by decide) sampleNow true 3
      "Selected".toList
      { skilledJob with id := 3, salaryRange := "Up to 8 LPA".toList, postedDaysAgo := 5 }
      (by decide) (by decide) (by decide)]
    decide⟩


/-! ## Lemmas on the digest -/

theorem insertBy_pairwise_rel {α : Type} (cmp : α → α → Int) (r : α → α → Prop)
    (hle : ∀ a b, cmp a b ≤ 0 → r a b) (hgt : ∀ a b, ¬ cmp a b ≤ 0 → r b a)
    (htrans : ∀ a b c, r a b → r b c → r a c) (a : α) (l : List α) (hl : l.Pairwise r) :
    (insertBy cmp a l).Pairwise r := by
  induction l with
  | nil => simp [insertBy]
  | cons b l ih =>
    rw [List.pairwise_cons] at hl
    unfold insertBy
    split_ifs with h
    · refine List.pairwise_cons.mpr ⟨?_, List.pairwise_cons.mpr hl⟩
      intro y hy
      rcases List.mem_cons.mp hy with rfl | hy
      · exact hle _ _ h
      · exact htrans _ _ _ (hle _ _ h) (hl.1 y hy)
    · refine List.pairwise_cons.mpr ⟨?_, ih hl.2⟩
      intro y hy
      rcases List.mem_cons.mp ((insertBy_perm cmp a l).subset hy) with rfl | hy
      · exact hgt _ _ h
      · exact hl.1 y hy

theorem arraySort_pairwise_rel {α : Type} (cmp : α → α → Int) (r : α → α → Prop)
    (hle : ∀ a b, cmp a b ≤ 0 → r a b) (hgt : ∀ a b, ¬ cmp a b ≤ 0 → r b a)
    (htrans : ∀ a b c, r a b → r b c → r a c) (l : List α) :
    (arraySort cmp l).Pairwise r := by
  induction l with
  | nil => exact List.Pairwise.nil
  | cons a l ih =>
    unfold arraySort
    exact insertBy_pairwise_rel cmp r hle hgt htrans a _ ih

theorem digestOrder_of_compare_le (a b : ScoredJob) (h : digestCompare a b ≤ 0) :
    DigestOrder a b := by
  unfold digestCompare at h
  unfold DigestOrder
  split_ifs at h with hne
  · left
    omega
  · right
    have heq : b.matchScore = a.matchScore := not_not.mp hne
    exact ⟨heq.symm, by omega⟩

theorem digestOrder_of_compare_gt (a b : ScoredJob) (h : ¬ digestCompare a b ≤ 0) :
    DigestOrder b a := by
  unfold digestCompare at h
  unfold DigestOrder
  split_ifs at h with hne
  · left
    omega
  · right
    have heq : b.matchScore = a.matchScore := not_not.mp hne
    exact ⟨heq, by omega⟩

theorem digestOrder_trans (a b c : ScoredJob) (hab : DigestOrder a b) (hbc : DigestOrder b c) :
    DigestOrder a c := by
  unfold DigestOrder at *
  omega

theorem not_ranksStrictlyBefore (a b : ScoredJob) (h : DigestOrder a b) :
    ¬ RanksStrictlyBefore b a := by
  unfold DigestOrder at h
  unfold RanksStrictlyBefore
  omega

theorem digestRanking_pairwise (l : List ScoredJob) :
    (arraySort digestCompare l).Pairwise DigestOrder :=
  arraySort_pairwise_rel digestCompare DigestOrder digestOrder_of_compare_le
    digestOrder_of_compare_gt digestOrder_trans l

theorem lookup_cons_self_digest (key : Str) (d : Digest) (l : List (Str × Digest)) :
    ((key, d) :: l).lookup key = some d := by
  rw [List.lookup_cons, beq_self_eq_true]

theorem getOrCreateTodayDigest_stored (lc : Str → Str) (preferences : Option Preferences)
    (catalog : List Job) (today : LocalDate) (writeOk : Bool) (st : Storage) (d : Digest)
    (h : st.digests.lookup (getDigestStorageKey today) = some d) :
    getOrCreateTodayDigest lc preferences catalog today writeOk st = (some d, st) := by
  unfold getOrCreateTodayDigest
  simp only [h]

theorem getOrCreateTodayDigest_empty (lc : Str → Str) (preferences : Option Preferences)
    (catalog : List Job) (today : LocalDate) (writeOk : Bool) (st : Storage)
    (h : st.digests.lookup (getDigestStorageKey today) = none)
    (hjobs : getTop10ForDigest lc preferences catalog = []) :
    getOrCreateTodayDigest lc preferences catalog today writeOk st = (none, st) := by
  unfold getOrCreateTodayDigest
  simp only [h, hjobs, List.length_nil, if_true]

theorem getOrCreateTodayDigest_fresh (lc : Str → Str) (preferences : Option Preferences)
    (catalog : List Job) (today : LocalDate) (writeOk : Bool) (st : Storage)
    (h : st.digests.lookup (getDigestStorageKey today) = none)
    (hjobs : getTop10ForDigest lc preferences catalog ≠ []) :
    getOrCreateTodayDigest lc preferences catalog today writeOk st =
      (some { date := replaceFirst digestKeyPrefix [] (getDigestStorageKey today),
              jobs := getTop10ForDigest lc preferences catalog },
       if writeOk then
         { st with digests :=
            (getDigestStorageKey today,
              { date := replaceFirst digestKeyPrefix [] (getDigestStorageKey today),
                jobs := getTop10ForDigest lc preferences catalog }) :: st.digests }
       else st) := by
  have hlen : ¬ (getTop10ForDigest lc preferences catalog).length = 0 := by
    intro h0
    exact hjobs (List.length_eq_zero.mp h0)
  unfold getOrCreateTodayDigest
  simp only [h, hlen, if_false]

/-- C17: if `getOrCreateTodayDigest` returns a digest `d`, then `d` is stored
under the key of the day whenever the write succeeds, and once `d` is stored
every later call on the same day, under any preferences, returns `d` and leaves
the storage as it is. -/
theorem digest_idempotent (lc : Str → Str) (p1 : Option Preferences) (catalog : List Job)
    (today : LocalDate) (w1 : Bool) (st st1 : Storage) (d : Digest)
    (hFirst : getOrCreateTodayDigest lc p1 catalog today w1 st = (some d, st1)) :
    (w1 = true → st1.digests.lookup (getDigestStorageKey today) = some d) ∧
      (st1.digests.lookup (getDigestStorageKey today) = some d →
        ∀ (p2 : Option Preferences) (catalog2 : List Job) (w2 : Bool),
          getOrCreateTodayDigest lc p2 catalog2 today w2 st1 = (some d, st1)) := by
  constructor
  · intro hw
    subst hw
    cases hl : st.digests.lookup (getDigestStorageKey today) with
    | some stored =>
      rw [getOrCreateTodayDigest_stored lc p1 catalog today true st stored hl] at hFirst
      simp only [Prod.mk.injEq, Option.some.injEq] at hFirst
      rw [← hFirst.1, ← hFirst.2]
      exact hl
    | none =>
      by_cases hjobs : getTop10ForDigest lc p1 catalog = []
      · rw [getOrCreateTodayDigest_empty lc p1 catalog today true st hl hjobs] at hFirst
        simp only [Prod.mk.injEq, reduceCtorEq, false_and] at hFirst
      · rw [getOrCreateTodayDigest_fresh lc p1 catalog today true st hl hjobs] at hFirst
        simp only [if_true, Prod.mk.injEq, Option.some.injEq] at hFirst
        rw [← hFirst.1, ← hFirst.2]
        exact lookup_cons_self_digest _ _ _
  · intro hstored p2 catalog2 w2
    exact getOrCreateTodayDigest_stored lc p2 catalog2 today w2 st1 d hstored

/-- C17 at a concrete input: a digest created under the scenario preferences is
returned again under absent preferences. -/
theorem digest_idempotent_witness :
    getOrCreateTodayDigest asciiLower none sampleCatalog sampleDate true
        (getOrCreateTodayDigest asciiLower (some scenarioPrefs) sampleCatalog sampleDate true
          emptyStorage).2 =
      getOrCreateTodayDigest asciiLower (some scenarioPrefs) sampleCatalog sampleDate true
        emptyStorage :=
  ((digest_idempotent asciiLower (some scenarioPrefs) sampleCatalog sampleDate true emptyStorage
      (getOrCreateTodayDigest asciiLower (some scenarioPrefs) sampleCatalog sampleDate true
        emptyStorage).2
      { date := "2026-11-04".toList,
        jobs := getTop10ForDigest asciiLower (some scenarioPrefs) sampleCatalog }
      (by decide)).2
    ((digest_idempotent asciiLower (some scenarioPrefs) sampleCatalog sampleDate true
      emptyStorage _ _ (by decide)).1 rfl) none sampleCatalog true).trans (by decide)

/-- C18: `getTop10ForDigest` returns at most 10 entries, each a catalog job with
its `calculateMatchScore`; they are the first 10 of the scored catalog ranked by
descending match score and then ascending `postedDaysAgo`, consecutive entries
are in that order, and no omitted entry ranks strictly before a returned one. -/
theorem getTop10ForDigest_ranked (lc : Str → Str) (preferences : Option Preferences)
    (catalog : List Job) :
    (getTop10ForDigest lc preferences catalog).length ≤ 10 ∧
      (∀ e ∈ getTop10ForDigest lc preferences catalog, ∃ job ∈ catalog,
        e = { job := job, matchScore := calculateMatchScore lc preferences job }) ∧
      (∃ ranked : List ScoredJob,
        ranked.Perm (jobsWithScores lc preferences catalog) ∧ ranked.Pairwise DigestOrder ∧
        getTop10ForDigest lc preferences catalog = ranked.take 10 ∧
        ∀ o ∈ ranked.drop 10, ∀ e ∈ getTop10ForDigest lc preferences catalog,
          ¬ RanksStrictlyBefore o e) ∧
      (getTop10ForDigest lc preferences catalog).Chain' DigestOrder := by
  have hpair := digestRanking_pairwise (jobsWithScores lc preferences catalog)
  have hperm := arraySort_perm digestCompare (jobsWithScores lc preferences catalog)
  refine ⟨?_, ?_, ⟨_, hperm, hpair, rfl, ?_⟩, ?_⟩
  · unfold getTop10ForDigest
    rw [List.length_take]
    exact Nat.min_le_left _ _
  · intro e he
    unfold getTop10ForDigest at he
    exact (mem_jobsWithScores lc preferences catalog e).mp
      (hperm.subset (List.mem_of_mem_take he))
  · intro o ho e he
    unfold getTop10ForDigest at he
    have hsplit := hpair
    rw [← List.take_append_drop 10 (arraySort digestCompare
      (jobsWithScores lc preferences catalog)), List.pairwise_append] at hsplit
    exact not_ranksStrictlyBefore e o (hsplit.2.2 e he o ho)
  · unfold getTop10ForDigest
    exact (hpair.sublist (List.take_sublist _ _)).chain'

/-- C19: when no digest is stored for the day and the ranking is empty,
`getOrCreateTodayDigest` returns `null` and leaves the storage unchanged, so a
later call on that day with a non-empty ranking builds a digest from it. -/
theorem digest_empty_not_stored (lc : Str → Str) (preferences : Option Preferences)
    (catalog : List Job) (today : LocalDate) (writeOk : Bool) (st : Storage)
    (hNone : st.digests.lookup (getDigestStorageKey today) = none)
    (hEmpty : getTop10ForDigest lc preferences catalog = []) :
    getOrCreateTodayDigest lc preferences catalog today writeOk st = (none, st) ∧
      ∀ (p2 : Option Preferences) (catalog2 : List Job) (w2 : Bool),
        getTop10ForDigest lc p2 catalog2 ≠ [] →
        (getOrCreateTodayDigest lc p2 catalog2 today w2
          (getOrCreateTodayDigest lc preferences catalog today writeOk st).2).1 =
          some { date := replaceFirst digestKeyPrefix [] (getDigestStorageKey today),
                 jobs := getTop10ForDigest lc p2 catalog2 } := by
  have h1 := getOrCreateTodayDigest_empty lc preferences catalog today writeOk st hNone hEmpty
  refine ⟨h1, ?_⟩
  intro p2 catalog2 w2 hjobs
  rw [h1, getOrCreateTodayDigest_fresh lc p2 catalog2 today w2 st hNone hjobs]

/-- C19 at a concrete input: an empty catalog on an empty storage. -/
theorem digest_empty_not_stored_witness :
    getOrCreateTodayDigest asciiLower (some scenarioPrefs) [] sampleDate true emptyStorage =
      (none, emptyStorage) :=
  (digest_empty_not_stored asciiLower (some scenarioPrefs) [] sampleDate true emptyStorage
    rfl rfl).1

/-! ## Lemmas on the mail draft -/

theorem split_of_not_mem (sep : Char) (l : Str) (h : sep ∉ l) : split sep l = [l] := by
  induction l with
  | nil => rfl
  | cons c cs ih =>
    have hc : c ≠ sep := fun e => h (e ▸ List.mem_cons_self _ _)
    have hcs : sep ∉ cs := fun hm => h (List.mem_cons_of_mem _ hm)
    rw [split, if_neg hc, ih hcs]

theorem split_append_sep (sep : Char) (l t : Str) (h : sep ∉ l) :
    split sep (l ++ sep :: t) = l :: split sep t := by
  induction l with
  | nil =>
    rw [List.nil_append, split, if_pos rfl]
  | cons c cs ih =>
    have hc : c ≠ sep := fun e => h (e ▸ List.mem_cons_self _ _)
    have hcs : sep ∉ cs := fun hm => h (List.mem_cons_of_mem _ hm)
    rw [List.cons_append, split, if_neg hc, ih hcs]

theorem joinLines_singleton (l : Str) : joinLines [l] = l := by
  simp [joinLines, List.intercalate, List.intersperse]

theorem joinLines_cons_cons (l l2 : Str) (rest : List Str) :
    joinLines (l :: l2 :: rest) = l ++ '\n' :: joinLines (l2 :: rest) := by
  simp [joinLines, List.intercalate, List.intersperse]

theorem split_joinLines (lines : List Str) (hne : lines ≠ [])
    (h : ∀ l ∈ lines, '\n' ∉ l) : split '\n' (joinLines lines) = lines := by
  induction lines with
  | nil => exact absurd rfl hne
  | cons l rest ih =>
    cases rest with
    | nil =>
      rw [joinLines_singleton]
      exact split_of_not_mem _ _ (h l (List.mem_cons_self _ _))
    | cons l2 rest2 =>
      rw [joinLines_cons_cons, split_append_sep _ _ _ (h l (List.mem_cons_self _ _)),
        ih (List.cons_ne_nil _ _) (fun x hx => h x (List.mem_cons_of_mem _ hx))]

theorem digitChar_ne_lineBreak (n : Nat) : Nat.digitChar n ≠ '\n' := by
  by_cases h : n < 16
  · interval_cases n <;> decide
  · unfold Nat.digitChar
    rw [if_neg (by omega), if_neg (by omega), if_neg (by omega), if_neg (by omega),
      if_neg (by omega), if_neg (by omega), if_neg (by omega), if_neg (by omega),
      if_neg (by omega), if_neg (by omega), if_neg (by omega), if_neg (by omega),
      if_neg (by omega), if_neg (by omega), if_neg (by omega), if_neg (by omega)]
    decide

theorem toDigitsCore_noLineBreak (fuel : Nat) :
    ∀ (n : Nat) (ds : List Char), '\n' ∉ ds → '\n' ∉ Nat.toDigitsCore 10 fuel n ds := by
  induction fuel with
  | zero => intro n ds h; exact h
  | succ f ih =>
    intro n ds h
    have hcons : '\n' ∉ Nat.digitChar (n % 10) :: ds := by
      intro hm
      rcases List.mem_cons.mp hm with he | hm
      · exact digitChar_ne_lineBreak _ he.symm
      · exact h hm
    unfold Nat.toDigitsCore
    simp only []
    split_ifs
    · exact hcons
    · exact ih _ _ hcons

theorem toDigits_noLineBreak (n : Nat) : '\n' ∉ Nat.toDigits 10 n := by
  unfold Nat.toDigits
  exact toDigitsCore_noLineBreak _ _ _ (List.not_mem_nil _)

theorem intToStr_noLineBreak (z : Int) : '\n' ∉ intToStr z := by
  unfold intToStr
  split_ifs
  · intro hm
    rcases List.mem_cons.mp hm with he | hm
    · exact absurd he (by decide)
    · exact toDigits_noLineBreak _ hm
  · exact toDigits_noLineBreak _

theorem not_mem_append_of {c : Char} {a b : Str} (ha : c ∉ a) (hb : c ∉ b) : c ∉ a ++ b := by
  intro hm
  rcases List.mem_append.mp hm with h | h
  · exact ha h
  · exact hb h

theorem mailtoJobLine_noLineBreak (i : Nat) (job : ScoredJob)
    (ht : NoLineBreak job.job.title) (hc : NoLineBreak job.job.company)
    (hl : NoLineBreak job.job.location) (he : NoLineBreak job.job.experience) :
    '\n' ∉ mailtoJobLine i job := by
  unfold NoLineBreak at *
  have hexp : '\n' ∉ (if job.job.experience = "Fresher".toList then "Fresher".toList
      else job.job.experience ++ " years".toList) := by
    split_ifs
    · decide
    · exact not_mem_append_of he (by decide)
  have h1 : '\n' ∉ ". ".toList := by decide
  have h2 : '\n' ∉ " | ".toList := by decide
  have h3 : '\n' ∉ " | Match: ".toList := by decide
  unfold mailtoJobLine
  exact not_mem_append_of (not_mem_append_of (not_mem_append_of (not_mem_append_of
    (not_mem_append_of (not_mem_append_of (not_mem_append_of (not_mem_append_of
    (not_mem_append_of (not_mem_append_of (toDigits_noLineBreak _) h1) ht) h2) hc) h2) hl) h2)
    hexp) h3) (intToStr_noLineBreak _)

theorem dropLast_dropLast_append_pair (l : List Str) (a b : Str) :
    (l ++ [a, b]).dropLast.dropLast = l := by
  have h : l ++ [a, b] = (l ++ [a]) ++ [b] := by
    rw [List.append_assoc]
    rfl
  rw [h, List.dropLast_concat, List.dropLast_concat]

theorem mailtoLines_noLineBreak (d : Digest) (hdate : NoLineBreak d.date)
    (hfields : ∀ j ∈ d.jobs, NoLineBreak j.job.title ∧ NoLineBreak j.job.company ∧
      NoLineBreak j.job.location ∧ NoLineBreak j.job.experience) :
    ∀ l ∈ mailtoLines d, '\n' ∉ l := by
  intro l hl
  unfold mailtoLines at hl
  rcases List.mem_append.mp hl with hl | hl
  · rcases List.mem_append.mp hl with hl | hl
    · rcases List.mem_cons.mp hl with rfl | hl
      · decide
      · rcases List.mem_cons.mp hl with rfl | hl
        · exact hdate
        · rw [List.mem_singleton] at hl
          subst hl
          exact List.not_mem_nil _
    · rw [List.mem_map] at hl
      obtain ⟨e, he, rfl⟩ := hl
      have hj := hfields e.2 (List.snd_mem_of_mem_enum he)
      exact mailtoJobLine_noLineBreak e.1 e.2 hj.1 hj.2.1 hj.2.2.1 hj.2.2.2
  · rcases List.mem_cons.mp hl with rfl | hl
    · exact List.not_mem_nil _
    · rw [List.mem_singleton] at hl
      subst hl
      decide

theorem formatDigestForMailto_of_jobs (d : Digest) (hjobs : d.jobs ≠ []) :
    formatDigestForMailto (some d) = joinLines (mailtoLines d) := by
  have hlen : ¬ d.jobs.length = 0 := fun h0 => hjobs (List.length_eq_zero.mp h0)
  unfold formatDigestForMailto
  simp only [hlen, if_false]

/-- C20 (as written fails): a job title with a line break gives two lines for
one job between the header and the footer of the compact text. -/
theorem lineBreak_title_two_lines :
    lineBreakDigest.jobs.length = 1 ∧
      (jobLinesOf (formatDigestForMailto (some lineBreakDigest))).length = 2 := by
  decide

theorem toUtf16_length_of_bmp (text : Str) (h : ∀ c ∈ text, c.toNat < 0x10000) :
    (toUtf16 text).length = text.length := by
  induction text with
  | nil => rfl
  | cons c cs ih =>
    have hc : c.toNat < 0x10000 := h c (List.mem_cons_self _ _)
    have hcs := ih (fun x hx => h x (List.mem_cons_of_mem _ hx))
    unfold toUtf16 at *
    rw [List.flatMap_cons, List.length_append, hcs, if_pos hc, List.length_singleton,
      List.length_cons]
    omega

theorem formatDigestForMailto_of_no_jobs (d : Digest) (hjobs : d.jobs = []) :
    formatDigestForMailto (some d) = [] := by
  unfold formatDigestForMailto
  simp only [hjobs, List.length_nil, if_true]

/-- C20 (amended): the mail-draft body is the compact text when it has at most
1000 UTF-16 code units (characters, for a text within the Basic Multilingual
Plane) and otherwise its first 1000 code units followed by the truncation
marker, and it is what the URL encodes; the compact text of a missing digest or
of a digest without jobs is empty; for a digest with jobs it is the three header
entries, one entry per job and the two footer entries joined by line breaks,
and when the date and the job fields have no line break these entries are the
lines of the text, one line per job between header and footer. -/
theorem mailto_body_and_lines (d : Digest) (hjobs : d.jobs ≠ []) :
    (∀ digest : Option Digest,
        mailtoBody digest =
          if (toUtf16 (formatDigestForMailto digest)).length ≤ 1000 then
            toUtf16 (formatDigestForMailto digest)
          else (toUtf16 (formatDigestForMailto digest)).take 1000 ++
            toUtf16 truncationMarker) ∧
      (∀ text : Str, (∀ c ∈ text, c.toNat < 0x10000) →
        (toUtf16 text).length = text.length) ∧
      (∀ (digest : Option Digest) (url : Str), buildMailtoDigestUrl digest = some url →
        ∃ subject body, encodeURIComponent (toUtf16 "My 9AM Job Digest".toList) = some subject ∧
          encodeURIComponent (mailtoBody digest) = some body ∧
          url = "mailto:?subject=".toList ++ subject ++ "&body=".toList ++ body) ∧
      formatDigestForMailto none = [] ∧
      (∀ d0 : Digest, d0.jobs = [] → formatDigestForMailto (some d0) = []) ∧
      formatDigestForMailto (some d) =
        joinLines (["Top 10 Jobs For You - 9AM Digest".toList, d.date, []] ++
          d.jobs.enum.map (fun e => mailtoJobLine e.1 e.2) ++
          [[], "This digest was generated based on your preferences.".toList]) ∧
      (d.jobs.enum.map (fun e => mailtoJobLine e.1 e.2)).length = d.jobs.length ∧
      (NoLineBreak d.date →
        (∀ j ∈ d.jobs, NoLineBreak j.job.title ∧ NoLineBreak j.job.company ∧
          NoLineBreak j.job.location ∧ NoLineBreak j.job.experience) →
        split '\n' (formatDigestForMailto (some d)) =
            ["Top 10 Jobs For You - 9AM Digest".toList, d.date, []] ++
              d.jobs.enum.map (fun e => mailtoJobLine e.1 e.2) ++
              [[], "This digest was generated based on your preferences.".toList] ∧
          jobLinesOf (formatDigestForMailto (some d)) =
            d.jobs.enum.map (fun e => mailtoJobLine e.1 e.2) ∧
          (jobLinesOf (formatDigestForMailto (some d))).length = d.jobs.length) := by
  refine ⟨?_, toUtf16_length_of_bmp, ?_, rfl, formatDigestForMailto_of_no_jobs,
    formatDigestForMailto_of_jobs d hjobs, ?_, ?_⟩
  · intro digest
    unfold mailtoBody
    simp only []
    by_cases hlen : (toUtf16 (formatDigestForMailto digest)).length ≤ 1000
    · rw [if_pos hlen, if_neg (Nat.not_lt.mpr hlen)]
    · rw [if_neg hlen, if_pos (Nat.not_le.mp hlen)]
  · intro digest url hurl
    unfold buildMailtoDigestUrl at hurl
    simp only [] at hurl
    cases hs : encodeURIComponent (toUtf16 "My 9AM Job Digest".toList) with
    | none => rw [hs] at hurl; cases hurl
    | some subject =>
      cases hb : encodeURIComponent (mailtoBody digest) with
      | none => rw [hs, hb] at hurl; cases hurl
      | some body =>
        rw [hs, hb] at hurl
        simp only [Option.some.injEq] at hurl
        exact ⟨subject, body, rfl, rfl, hurl.symm⟩
  · rw [List.length_map, List.enum_length]
  · intro hdate hfields
    have hsplit : split '\n' (formatDigestForMailto (some d)) = mailtoLines d := by
      rw [formatDigestForMailto_of_jobs d hjobs]
      refine split_joinLines _ ?_ (mailtoLines_noLineBreak d hdate hfields)
      unfold mailtoLines
      exact List.cons_ne_nil _ _
    have hbetween : jobLinesOf (formatDigestForMailto (some d)) =
        d.jobs.enum.map (fun e => mailtoJobLine e.1 e.2) := by
      unfold jobLinesOf
      rw [hsplit]
      unfold mailtoLines
      rw [List.append_assoc]
      show ((d.jobs.enum.map (fun e => mailtoJobLine e.1 e.2) ++
        [[], "This digest was generated based on your preferences.".toList]).dropLast).dropLast
          = _
      exact dropLast_dropLast_append_pair _ _ _
    refine ⟨hsplit, hbetween, ?_⟩
    rw [hbetween, List.length_map, List.enum_length]

/-- C20 at a concrete input: the digest of the three-entry catalog has one
line per job between header and footer. -/
theorem mailto_body_and_lines_witness :
    sampleDigest.jobs ≠ [] ∧
      (jobLinesOf (formatDigestForMailto (some sampleDigest))).length =
        sampleDigest.jobs.length :=
  ⟨by decide,
   ((mailto_body_and_lines sampleDigest (by decide)).2.2.2.2.2.2.2 (by decide)
      (by decide)).2.2⟩

theorem isUriUnreserved_lt (u : Nat) (h : isUriUnreserved u = true) : u < 0x80 := by
  unfold isUriUnreserved at h
  simp only [Bool.or_eq_true, Bool.and_eq_true, decide_eq_true_eq, beq_iff_eq] at h
  omega

theorem encodeURIComponent_unpaired (hi l : Nat) (rest : List Nat)
    (hhi : 0xD800 ≤ hi ∧ hi ≤ 0xDBFF) (hl : ¬ (0xDC00 ≤ l ∧ l ≤ 0xDFFF)) :
    ∀ (n : Nat) (pre : List Nat), pre.length ≤ n →
      encodeURIComponent (pre ++ hi :: l :: rest) = none := by
  have hun : ¬ isUriUnreserved hi = true := fun h => by
    have := isUriUnreserved_lt hi h
    omega
  have hlow : ¬ (0xDC00 ≤ hi ∧ hi ≤ 0xDFFF) := by omega
  have hbase : encodeURIComponent (hi :: l :: rest) = none := by
    rw [encodeURIComponent, if_neg hun, if_neg hlow, if_pos hhi, if_neg hl]
  intro n
  induction n with
  | zero =>
    intro pre hlen
    have : pre = [] := List.length_eq_zero.mp (Nat.le_zero.mp hlen)
    subst this
    exact hbase
  | succ n ih =>
    intro pre hlen
    match pre, hlen with
    | [], _ => exact hbase
    | [u], _ =>
      rw [List.singleton_append, encodeURIComponent, hbase]
      split_ifs <;> rfl
    | u :: v :: pre2, hlen =>
      have h1 : (v :: pre2).length ≤ n := by
        simp only [List.length_cons] at hlen ⊢
        omega
      have h2 : pre2.length ≤ n := by
        simp only [List.length_cons] at hlen
        omega
      rw [List.cons_append, List.cons_append, encodeURIComponent]
      have e1 := ih (v :: pre2) h1
      have e2 := ih pre2 h2
      rw [List.cons_append] at e1
      rw [e1, e2]
      split_ifs <;> rfl

/-- When the compact text is longer than 1000 code units and unit 1000 is the
first half of a surrogate pair, the cut leaves it alone and
`encodeURIComponent` raises `URIError`: no URL is built. -/
theorem buildMailtoDigestUrl_cut_in_pair (digest : Option Digest) (hi : Nat)
    (hlong : 1000 < (toUtf16 (formatDigestForMailto digest)).length)
    (hunit : (toUtf16 (formatDigestForMailto digest))[999]? = some hi)
    (hhi : 0xD800 ≤ hi ∧ hi ≤ 0xDBFF) :
    buildMailtoDigestUrl digest = none := by
  obtain ⟨t, ht⟩ : ∃ t, toUtf16 truncationMarker = 10 :: t :=
    ⟨(toUtf16 truncationMarker).drop 1, by decide⟩
  have henc : encodeURIComponent (mailtoBody digest) = none := by
    unfold mailtoBody
    simp only []
    rw [if_pos hlong, List.take_succ, hunit, ht, List.append_assoc]
    exact encodeURIComponent_unpaired hi 10 t hhi (by omega) _ _ (Nat.le_refl _)
  unfold buildMailtoDigestUrl
  simp only [henc]
  cases encodeURIComponent (toUtf16 "My 9AM Job Digest".toList) <;> rfl

set_option maxRecDepth 100000 in
/-- The digest `surrogateCutDigest` is such a case: no URL is built for it. -/
theorem buildMailtoDigestUrl_surrogateCutDigest :
    buildMailtoDigestUrl (some surrogateCutDigest) = none :=
  buildMailtoDigestUrl_cut_in_pair (some surrogateCutDigest) 0xD83D (by decide) (by rfl)
    (by decide)

/-! ## Lemmas on the proof links and the project status -/

theorem trim_nil : trim [] = [] := rfl

theorem validateUrl_of_rejected (parseUrl : Str → Option Str) (link : Str)
    (h : LinkRejected parseUrl link) : validateUrl parseUrl link = false := by
  unfold validateUrl
  cases hl : link.isEmpty with
  | true => rfl
  | false =>
    simp only [Bool.false_eq_true, if_false]
    cases ht : (trim link).isEmpty with
    | true => rfl
    | false =>
      simp only [Bool.false_eq_true, if_false]
      rcases h with h | h | h | ⟨protocol, hp, h1, h2⟩
      · rw [h] at hl
        exact absurd hl (by decide)
      · rw [trim_eq_nil link h] at ht
        exact absurd ht (by decide)
      · rw [h]
      · rw [hp]
        simp only [h1, h2, decide_False, Bool.or_self]

theorem validateUrl_of_https (parseUrl : Str → Option Str) (link : Str)
    (h : IsHttpsUrl parseUrl link) : validateUrl parseUrl link = true := by
  obtain ⟨hne, hp⟩ := h
  have hl : link.isEmpty = false := by
    cases link with
    | nil => exact absurd trim_nil hne
    | cons a l => rfl
  have ht : (trim link).isEmpty = false := by
    cases hc : trim link with
    | nil => exact absurd hc hne
    | cons a l => rfl
  unfold validateUrl
  simp only [hl, ht, hp, Bool.false_eq_true, if_false, decide_True, Bool.or_true]

theorem allProofLinksValid_eq (parseUrl : Str → Option Str) (stored : Option ProofLinks) :
    allProofLinksValid parseUrl stored =
      (validateUrl parseUrl (getProofLinks stored).lovable &&
        (validateUrl parseUrl (getProofLinks stored).github &&
          validateUrl parseUrl (getProofLinks stored).deployed)) := by
  have h1 : linkAt (getProofLinks stored) "lovable".toList = (getProofLinks stored).lovable := by
    unfold linkAt
    rw [if_pos rfl]
  have h2 : linkAt (getProofLinks stored) "github".toList = (getProofLinks stored).github := by
    unfold linkAt
    rw [if_neg (by decide), if_pos rfl]
  have h3 : linkAt (getProofLinks stored) "deployed".toList =
      (getProofLinks stored).deployed := by
    unfold linkAt
    rw [if_neg (by decide), if_neg (by decide), if_pos rfl]
  unfold allProofLinksValid PROOF_LINK_KEYS
  simp only [List.all_cons, List.all_nil, Bool.and_true, h1, h2, h3]

theorem hasAnyLink_eq (stored : Option ProofLinks) :
    PROOF_LINK_KEYS.any
        (fun key => decide ((trim (linkAt (getProofLinks stored) key)).length > 0)) =
      (decide ((trim (getProofLinks stored).lovable).length > 0) ||
        (decide ((trim (getProofLinks stored).github).length > 0) ||
          decide ((trim (getProofLinks stored).deployed).length > 0))) := by
  have h1 : linkAt (getProofLinks stored) "lovable".toList = (getProofLinks stored).lovable := by
    unfold linkAt
    rw [if_pos rfl]
  have h2 : linkAt (getProofLinks stored) "github".toList = (getProofLinks stored).github := by
    unfold linkAt
    rw [if_neg (by decide), if_pos rfl]
  have h3 : linkAt (getProofLinks stored) "deployed".toList =
      (getProofLinks stored).deployed := by
    unfold linkAt
    rw [if_neg (by decide), if_neg (by decide), if_pos rfl]
  unfold PROOF_LINK_KEYS
  simp only [List.any_cons, List.any_nil, Bool.or_false, h1, h2, h3]

theorem mem_testIds (i : Nat) : i ∈ testIds ↔ 1 ≤ i ∧ i ≤ 10 := by
  unfold testIds JNT_TEST_COUNT
  rw [List.mem_range'_1]
  omega

theorem lookup_map_pair (f : Nat → Bool) (l : List Nat) (i : Nat) (hi : i ∈ l) :
    (l.map (fun j => (j, f j))).lookup i = some (f i) := by
  induction l with
  | nil => cases hi
  | cons a l ih =>
    rw [List.map_cons, List.lookup_cons]
    by_cases ha : i = a
    · subst ha
      rw [beq_self_eq_true]
    · have hb : (i == a) = false := by rw [beq_eq_false_iff_ne]; exact ha
      rw [hb]
      rcases List.mem_cons.mp hi with h | h
      · exact absurd h ha
      · exact ih h

theorem getD_false_eq_true (o : Option Bool) : o.getD false = true ↔ o = some true := by
  cases o with
  | none => simp
  | some b => cases b <;> simp

theorem allTestsPassed_iff (checklist : Option (List (Nat × Bool))) :
    allTestsPassed checklist = true ↔ AllItemsChecked checklist := by
  unfold allTestsPassed AllItemsChecked
  cases checklist with
  | none =>
    constructor
    · intro h
      exact absurd h (by decide)
    · rintro ⟨parsed, hp, _⟩
      cases hp
  | some parsed =>
    simp only [getTestChecklistState, List.all_eq_true, Option.some.injEq, exists_eq_left']
    constructor
    · intro h i h1 h2
      have hi : i ∈ testIds := (mem_testIds i).mpr ⟨h1, h2⟩
      have := h i hi
      rw [lookup_map_pair _ _ _ hi, Option.getD_some, getD_false_eq_true] at this
      exact this
    · intro h i hi
      have hb := (mem_testIds i).mp hi
      rw [lookup_map_pair _ _ _ hi, Option.getD_some, getD_false_eq_true]
      exact h i hb.1 hb.2

theorem anyTestChecked_iff (checklist : Option (List (Nat × Bool))) :
    (getTestChecklistState checklist).any (fun e => e.2) = true ↔
      SomeItemChecked checklist := by
  unfold SomeItemChecked
  cases checklist with
  | none =>
    constructor
    · intro h
      exact absurd h (by decide)
    · rintro ⟨parsed, hp, _⟩
      cases hp
  | some parsed =>
    simp only [getTestChecklistState, List.any_eq_true, List.mem_map, Option.some.injEq,
      exists_eq_left']
    constructor
    · rintro ⟨e, ⟨i, hi, rfl⟩, he⟩
      have hb := (mem_testIds i).mp hi
      exact ⟨i, hb.1, hb.2, (getD_false_eq_true _).mp he⟩
    · rintro ⟨i, h1, h2, hl⟩
      exact ⟨(i, (parsed.lookup i).getD false), ⟨i, (mem_testIds i).mpr ⟨h1, h2⟩, rfl⟩,
        (getD_false_eq_true _).mpr hl⟩

theorem length_pos_iff_ne_nil (s : Str) : decide (s.length > 0) = true ↔ s ≠ [] := by
  cases s <;> simp

theorem shipped_iff (parseUrl : Str → Option Str) (checklist : Option (List (Nat × Bool)))
    (stored : Option ProofLinks) :
    (allTestsPassed checklist && allProofLinksValid parseUrl stored) = true ↔
      ShippedCondition parseUrl checklist stored := by
  unfold ShippedCondition
  rw [Bool.and_eq_true, allTestsPassed_iff, allProofLinksValid_eq, Bool.and_eq_true,
    Bool.and_eq_true]

theorem progress_iff (checklist : Option (List (Nat × Bool))) (stored : Option ProofLinks) :
    (PROOF_LINK_KEYS.any
        (fun key => decide ((trim (linkAt (getProofLinks stored) key)).length > 0)) ||
      (getTestChecklistState checklist).any (fun e => e.2)) = true ↔
      ProgressCondition checklist stored := by
  unfold ProgressCondition
  rw [hasAnyLink_eq, Bool.or_eq_true, Bool.or_eq_true, Bool.or_eq_true, anyTestChecked_iff,
    length_pos_iff_ne_nil, length_pos_iff_ne_nil, length_pos_iff_ne_nil]
  tauto

theorem getProofLinks_some (links : ProofLinks) : getProofLinks (some links) = links := rfl

/-- C21: for stored links, `allProofLinksValid` is false as soon as one of the
three is empty, blank, not parseable as a URL or parsed with a protocol other
than `http:` and `https:`, and it is true when all three are `https://` URLs;
with nothing stored it is false. -/
theorem allProofLinksValid_spec (parseUrl : Str → Option Str) (links : ProofLinks) :
    ((LinkRejected parseUrl links.lovable ∨ LinkRejected parseUrl links.github ∨
          LinkRejected parseUrl links.deployed) →
        allProofLinksValid parseUrl (some links) = false) ∧
      ((IsHttpsUrl parseUrl links.lovable ∧ IsHttpsUrl parseUrl links.github ∧
          IsHttpsUrl parseUrl links.deployed) →
        allProofLinksValid parseUrl (some links) = true) ∧
      allProofLinksValid parseUrl none = false := by
  rw [allProofLinksValid_eq, allProofLinksValid_eq, getProofLinks_some]
  refine ⟨?_, ?_, rfl⟩
  · rintro (h | h | h)
    · rw [validateUrl_of_rejected parseUrl _ h, Bool.false_and]
    · rw [validateUrl_of_rejected parseUrl _ h, Bool.false_and, Bool.and_false]
    · rw [validateUrl_of_rejected parseUrl _ h, Bool.and_false, Bool.and_false]
  · rintro ⟨h1, h2, h3⟩
    rw [validateUrl_of_https parseUrl _ h1, validateUrl_of_https parseUrl _ h2,
      validateUrl_of_https parseUrl _ h3]
    rfl

/-- C21 at concrete inputs: three stored `https://` URLs are accepted, and the
same links with an `ftp://` URL for `github` are rejected. -/
theorem allProofLinksValid_spec_witness :
    allProofLinksValid sampleParseUrl (some httpsLinks) = true ∧
      allProofLinksValid sampleParseUrl (some ftpLinks) = false :=
  ⟨(allProofLinksValid_spec sampleParseUrl httpsLinks).2.1
      ⟨⟨by decide, by decide⟩, ⟨by decide, by decide⟩, ⟨by decide, by decide⟩⟩,
   (allProofLinksValid_spec sampleParseUrl ftpLinks).1
      (Or.inr (Or.inl (Or.inr (Or.inr (Or.inr
        ⟨"ftp:".toList, by decide, by decide, by decide⟩)))))⟩

/-- C22 (as written fails): with no checklist item checked and one stored link
that is a single blank, a link is non-empty but the status is `not-started`. -/
theorem blank_link_not_started :
    ProgressConditionAsWritten none (some blankLinks) ∧
      ¬ ShippedCondition sampleParseUrl none (some blankLinks) ∧
      getProject1Status sampleParseUrl none (some blankLinks) = "not-started".toList := by
  refine ⟨Or.inr (Or.inl (by decide)), ?_, by decide⟩
  rintro ⟨⟨parsed, hp, _⟩, _⟩
  cases hp

/-- C22 (amended): `getProject1Status` returns one of `shipped`, `in-progress`,
`not-started`; `shipped` exactly when all ten items are checked and all three
links are valid; otherwise `in-progress` exactly when some item is checked or
some link is non-empty after trimming; otherwise `not-started`. -/
theorem getProject1Status_spec (parseUrl : Str → Option Str)
    (checklist : Option (List (Nat × Bool))) (stored : Option ProofLinks) :
    (getProject1Status parseUrl checklist stored = "shipped".toList ∨
        getProject1Status parseUrl checklist stored = "in-progress".toList ∨
        getProject1Status parseUrl checklist stored = "not-started".toList) ∧
      (getProject1Status parseUrl checklist stored = "shipped".toList ↔
        ShippedCondition parseUrl checklist stored) ∧
      (getProject1Status parseUrl checklist stored = "in-progress".toList ↔
        ¬ ShippedCondition parseUrl checklist stored ∧ ProgressCondition checklist stored) ∧
      (getProject1Status parseUrl checklist stored = "not-started".toList ↔
        ¬ ShippedCondition parseUrl checklist stored ∧
          ¬ ProgressCondition checklist stored) := by
  have hsp : "shipped".toList ≠ "in-progress".toList := by decide
  have hsn : "shipped".toList ≠ "not-started".toList := by decide
  have hpn : "in-progress".toList ≠ "not-started".toList := by decide
  by_cases hs : ShippedCondition parseUrl checklist stored
  · have hv : getProject1Status parseUrl checklist stored = "shipped".toList := by
      unfold getProject1Status
      simp only []
      rw [if_pos ((shipped_iff parseUrl checklist stored).mpr hs)]
    rw [hv]
    exact ⟨Or.inl rfl, ⟨fun _ => hs, fun _ => rfl⟩,
      ⟨fun h => absurd h hsp, fun h => absurd hs h.1⟩,
      ⟨fun h => absurd h hsn, fun h => absurd hs h.1⟩⟩
  · have hns : ¬ (allTestsPassed checklist && allProofLinksValid parseUrl stored) = true :=
      fun h => hs ((shipped_iff parseUrl checklist stored).mp h)
    by_cases hp : ProgressCondition checklist stored
    · have hv : getProject1Status parseUrl checklist stored = "in-progress".toList := by
        unfold getProject1Status
        simp only []
        rw [if_neg hns, if_pos ((progress_iff checklist stored).mpr hp)]
      rw [hv]
      exact ⟨Or.inr (Or.inl rfl), ⟨fun h => absurd h.symm hsp, fun h => absurd h hs⟩,
        ⟨fun _ => ⟨hs, hp⟩, fun _ => rfl⟩,
        ⟨fun h => absurd h hpn, fun h => absurd hp h.2⟩⟩
    · have hnp : ¬ (PROOF_LINK_KEYS.any
          (fun key => decide ((trim (linkAt (getProofLinks stored) key)).length > 0)) ||
          (getTestChecklistState checklist).any (fun e => e.2)) = true :=
        fun h => hp ((progress_iff checklist stored).mp h)
      have hv : getProject1Status parseUrl checklist stored = "not-started".toList := by
        unfold getProject1Status
        simp only []
        rw [if_neg hns, if_neg hnp]
      rw [hv]
      exact ⟨Or.inr (Or.inr rfl), ⟨fun h => absurd h.symm hsn, fun h => absurd h hs⟩,
        ⟨fun h => absurd h.symm hpn, fun h => absurd h.2 hp⟩,
        ⟨fun _ => ⟨hs, hp⟩, fun _ => rfl⟩⟩

/-! ## Lemmas on the frame of the ledger, the digest size and the saved jobs -/

theorem statusMap_setJobStatus_cases (catalog : List Job) (now : Str)
    (mapWriteOk updatesWriteOk : Bool) (st : Storage) (jobId : Nat) (status : Str) :
    getJobStatusMap (setJobStatus catalog now mapWriteOk updatesWriteOk st jobId status) =
        getJobStatusMap st ∨
      getJobStatusMap (setJobStatus catalog now mapWriteOk updatesWriteOk st jobId status) =
        setProperty jobId status (getJobStatusMap st) := by
  unfold setJobStatus
  cases hc : STATUS_VALUES.contains status <;> cases mapWriteOk <;> cases updatesWriteOk <;>
    cases hf : catalog.find? (fun j => decide (j.id = jobId)) <;>
    by_cases hna : status = "Not Applied".toList <;>
    simp only [hna, Bool.not_true, Bool.not_false, Bool.false_eq_true, if_true, if_false, ne_eq,
      not_true_eq_false, not_false_eq_true] <;>
    first
      | exact Or.inl trivial
      | (left; rfl)
      | (right; rfl)

theorem setJobStatus_other_keys (catalog : List Job) (now : Str)
    (mapWriteOk updatesWriteOk : Bool) (st : Storage) (jobId : Nat) (status : Str) :
    (setJobStatus catalog now mapWriteOk updatesWriteOk st jobId status).jobTrackerPreferences =
        st.jobTrackerPreferences ∧
      (setJobStatus catalog now mapWriteOk updatesWriteOk st jobId status).savedJobs =
        st.savedJobs ∧
      (setJobStatus catalog now mapWriteOk updatesWriteOk st jobId status).digests =
        st.digests := by
  unfold setJobStatus
  cases hc : STATUS_VALUES.contains status <;> cases mapWriteOk <;> cases updatesWriteOk <;>
    cases hf : catalog.find? (fun j => decide (j.id = jobId)) <;>
    by_cases hna : status = "Not Applied".toList <;>
    simp only [hna, Bool.not_true, Bool.not_false, Bool.false_eq_true, if_true, if_false, ne_eq,
      not_true_eq_false, not_false_eq_true] <;>
    exact ⟨trivial, trivial, trivial⟩

theorem getTop10ForDigest_length (lc : Str → Str) (preferences : Option Preferences)
    (catalog : List Job) :
    (getTop10ForDigest lc preferences catalog).length = min 10 catalog.length := by
  unfold getTop10ForDigest
  rw [List.length_take,
    (arraySort_perm digestCompare (jobsWithScores lc preferences catalog)).length_eq]
  unfold jobsWithScores
  rw [List.length_map]

theorem getTop10ForDigest_eq_nil_iff (lc : Str → Str) (preferences : Option Preferences)
    (catalog : List Job) : getTop10ForDigest lc preferences catalog = [] ↔ catalog = [] := by
  rw [← List.length_eq_zero, getTop10ForDigest_length, ← List.length_eq_zero]
  omega

theorem toggleSave_card_flips (writeOk : Bool) (savedJobIds : List Nat) (st : Storage)
    (jobId : Nat) (button : SaveButton) :
    (toggleSave writeOk savedJobIds st jobId (some { saveButton := some button })).threw =
        false ∧
      (jobId ∈ (toggleSave writeOk savedJobIds st jobId
          (some { saveButton := some button })).savedJobIds ↔ jobId ∉ savedJobIds) ∧
      ∀ other, other ≠ jobId →
        (other ∈ (toggleSave writeOk savedJobIds st jobId
          (some { saveButton := some button })).savedJobIds ↔ other ∈ savedJobIds) := by
  unfold toggleSave
  by_cases h : jobId ∈ savedJobIds
  · have hc : savedJobIds.contains jobId = true := List.elem_eq_true_of_mem h
    simp only [hc, if_true]
    refine ⟨by trivial, ?_, ?_⟩
    · simp [h]
    · intro other ho
      simp [ho]
  · have hc : savedJobIds.contains jobId = false := by
      rw [← Bool.not_eq_true]
      exact fun hm => h (List.mem_of_elem_eq_true hm)
    simp only [hc, Bool.false_eq_true, if_false]
    refine ⟨by trivial, ?_, ?_⟩
    · simp [h]
    · intro other ho
      simp [ho]

/-- C23: `setJobStatus(id, s)` leaves `getJobStatus(id2)` unchanged for every
other identifier `id2`, and it leaves the stored preferences, the saved jobs
and the stored digests as they are. -/
theorem setJobStatus_frame (catalog : List Job) (now : Str) (mapWriteOk updatesWriteOk : Bool)
    (st : Storage) (jobId other : Nat) (status : Str) (hne : other ≠ jobId) :
    getJobStatus
        (getJobStatusMap (setJobStatus catalog now mapWriteOk updatesWriteOk st jobId status))
        other = getJobStatus (getJobStatusMap st) other ∧
      (setJobStatus catalog now mapWriteOk updatesWriteOk st jobId status).jobTrackerPreferences =
        st.jobTrackerPreferences ∧
      (setJobStatus catalog now mapWriteOk updatesWriteOk st jobId status).savedJobs =
        st.savedJobs ∧
      (setJobStatus catalog now mapWriteOk updatesWriteOk st jobId status).digests =
        st.digests := by
  refine ⟨?_, setJobStatus_other_keys catalog now mapWriteOk updatesWriteOk st jobId status⟩
  rcases statusMap_setJobStatus_cases catalog now mapWriteOk updatesWriteOk st jobId status
    with h | h
  · rw [h]
  · rw [h]
    unfold getJobStatus
    rw [lookup_setProperty_other jobId other status _ hne]

/-- C23 at a concrete input: setting job 3 to `Selected` leaves the stored
`Rejected` of job 7. -/
theorem setJobStatus_frame_witness :
    getJobStatus
        (getJobStatusMap (setJobStatus sampleCatalog sampleNow true true fullLogStorage 3
          "Selected".toList)) 7 = "Rejected".toList ∧
      (setJobStatus sampleCatalog sampleNow true true fullLogStorage 3
        "Selected".toList).digests = fullLogStorage.digests :=
  ⟨(setJobStatus_frame sampleCatalog sampleNow true true fullLogStorage 3 7 "Selected".toList
      (by decide)).1.trans (by decide),
   (setJobStatus_frame sampleCatalog sampleNow true true fullLogStorage 3 7 "Selected".toList
      (by decide)).2.2.2⟩

/-- C24: with no digest stored for the day, `getOrCreateTodayDigest` on a
non-empty catalog returns a digest with exactly `min(10, catalog size)` jobs,
whatever the preferences; it returns `null` exactly when the catalog is empty;
and with absent preferences every job of the digest has match score 0. -/
theorem digest_not_filtered (lc : Str → Str) (preferences : Option Preferences)
    (catalog : List Job) (today : LocalDate) (writeOk : Bool) (st : Storage)
    (hNone : st.digests.lookup (getDigestStorageKey today) = none) :
    (catalog ≠ [] →
        ∃ d, (getOrCreateTodayDigest lc preferences catalog today writeOk st).1 = some d ∧
          d.jobs.length = min 10 catalog.length) ∧
      ((getOrCreateTodayDigest lc preferences catalog today writeOk st).1 = none ↔
        catalog = []) ∧
      (∀ d, (getOrCreateTodayDigest lc none catalog today writeOk st).1 = some d →
        ∀ e ∈ d.jobs, e.matchScore = 0) := by
  refine ⟨?_, ?_, ?_⟩
  · intro hne
    have hjobs : getTop10ForDigest lc preferences catalog ≠ [] :=
      fun h => hne ((getTop10ForDigest_eq_nil_iff lc preferences catalog).mp h)
    rw [getOrCreateTodayDigest_fresh lc preferences catalog today writeOk st hNone hjobs]
    exact ⟨_, rfl, getTop10ForDigest_length lc preferences catalog⟩
  · constructor
    · intro h
      by_contra hne
      have hjobs : getTop10ForDigest lc preferences catalog ≠ [] :=
        fun h => hne ((getTop10ForDigest_eq_nil_iff lc preferences catalog).mp h)
      rw [getOrCreateTodayDigest_fresh lc preferences catalog today writeOk st hNone hjobs] at h
      cases h
    · intro h
      rw [getOrCreateTodayDigest_empty lc preferences catalog today writeOk st hNone
        ((getTop10ForDigest_eq_nil_iff lc preferences catalog).mpr h)]
  · intro d hd e he
    by_cases hjobs : getTop10ForDigest lc none catalog = []
    · rw [getOrCreateTodayDigest_empty lc none catalog today writeOk st hNone hjobs] at hd
      cases hd
    · rw [getOrCreateTodayDigest_fresh lc none catalog today writeOk st hNone hjobs] at hd
      simp only [Option.some.injEq] at hd
      subst hd
      have hmem : e ∈ jobsWithScores lc none catalog :=
        (arraySort_perm digestCompare _).subset (List.mem_of_mem_take he)
      obtain ⟨job, _, rfl⟩ := (mem_jobsWithScores lc none catalog e).mp hmem
      rfl

/-- C24 at a concrete input: the three-entry catalog with absent preferences
gives a digest of three jobs. -/
theorem digest_not_filtered_witness :
    ∃ d, (getOrCreateTodayDigest asciiLower none sampleCatalog sampleDate true
        emptyStorage).1 = some d ∧ d.jobs.length = min 10 sampleCatalog.length :=
  (digest_not_filtered asciiLower none sampleCatalog sampleDate true emptyStorage rfl).1
    (by decide)

/-- C25 (failing input): called without a card element, as the save button of
the job modal does, `toggleSave` raises a `TypeError` before it touches the set;
with a card the same call adds the identifier. -/
theorem toggleSave_without_card_throws :
    (toggleSave true [1, 2] emptyStorage 3 none).threw = true ∧
      (toggleSave true [1, 2] emptyStorage 3 none).savedJobIds = [1, 2] ∧
      (toggleSave true [1, 2] emptyStorage 3 none).storage = emptyStorage ∧
      (toggleSave true [1, 2] emptyStorage 3 (some sampleCard)).threw = false ∧
      (toggleSave true [1, 2] emptyStorage 3 (some sampleCard)).savedJobIds = [1, 2, 3] := by
  decide

end JobTracker
